import Mathlib

/-!
# Ge-ThreadPool: a model of `src/threadpool.cpp`

The pool's shared state, the submission path, `start`, the worker dispatch loop
`threadFunc` and the destructor are embedded as functions on an explicit `World`.
Every block of code that runs while `taskQueMtx_` is held is one atomic step; a
condition-variable wait ends the step (the lock is released there) and the wake-up
is a later step, so traces of steps are the interleavings of the threads. The code
that runs without the lock is a step of its own: `task->exec()`, lines 226-227 after
it, and lines 24-25 of the destructor. `start` runs before any submission and is one
step.

Conventions.
* `int` fields are `Int`, `size_t` values are `Nat`; the one signed-to-unsigned
  conversion of the source, `(size_t)taskQueMaxThreadHold_`, is `toSizeT`.
  The header that declares the counters is not among the sources, so the counters
  are integers here and increments are not wrapped.
* `std::shared_ptr<Task>` values are addresses (`Nat`); the pool never looks inside.
* Fields that do not exist in the C++ objects are history variables and are marked
  "history" where they are declared. No control decision reads them.
-/

namespace GeThreadPool

/-! ## Constants (threadpool.cpp, lines 5-7) -/

def TASK_MAX_THREADHOLD : Int := 2147483647
def THREAD_MAX_THREADHOLD : Int := 10
def THREAD_MAX_IDEL_TIME : Int := 10

/-- Number of `high_resolution_clock` ticks in one second (nanosecond ticks). -/
def ticksPerSecond : Nat := 1000000000

/-- The conversion `(size_t)x` of an `int` on a 64-bit target. -/
def toSizeT (x : Int) : Nat := (x % 18446744073709551616).toNat

inductive PoolMode where
  | MODE_FIXED
  | MODE_CACHED
  deriving DecidableEq, Repr

/-! ## Any, Semaphore, Result, Task (threadpool.cpp, lines 260-300) -/

/-- Modelled from the spec: the class `Any` is declared in `threadpool.h`, which is
not among the sources. It is "a tagged holder of one value of one type"; `unset` is
the holder with nothing in it (default-constructed or moved-from), `ofCStr s` the
holder built from a string literal. -/
inductive Any where
  | unset
  | ofCStr (s : String)
  | ofULong (n : Nat)
  deriving DecidableEq, Repr

/-- Modelled from the spec: the class `Semaphore` is declared in `threadpool.h`,
which is not among the sources. It is the "one-shot signal primitive" that "lets one
thread block until another thread signals": a counter of posted, unconsumed signals,
zero at construction. -/
structure Semaphore where
  resLimit_ : Nat
  deriving DecidableEq, Repr

/-- Modelled from the spec: `Semaphore::post` adds one signal. -/
def Semaphore.post (s : Semaphore) : Semaphore :=
  { resLimit_ := s.resLimit_ + 1 }

/-- Modelled from the spec: `Semaphore::wait` consumes one signal; `none` means the
caller is blocked because no signal is available. -/
def Semaphore.wait (s : Semaphore) : Option Semaphore :=
  if 0 < s.resLimit_ then some { resLimit_ := s.resLimit_ - 1 } else none

/-- The members of `Result` that `Result::Result`, `setVal` and `get` use. -/
structure Result where
  any_ : Any
  sem_ : Semaphore
  task_ : Nat
  isValid_ : Bool
  deriving DecidableEq, Repr

/-- `Result::Result(task, isValid)`, lines 261-266: the value members are
default-constructed. The call `task_->setResult(this)` changes the task object, not
the Result, and is `Task.setResult`. -/
def Result.ctor (task : Nat) (isValid : Bool) : Result :=
  { any_ := Any.unset, sem_ := { resLimit_ := 0 }, task_ := task, isValid_ := isValid }

/-- `Result::setVal`, lines 285-290. -/
def Result.setVal (r : Result) (any : Any) : Result :=
  { r with any_ := any, sem_ := r.sem_.post }

/-- `Result::get`, lines 292-300. `none` means the caller is blocked in `sem_.wait()`;
otherwise the returned value and the Result afterwards (its value moved out). -/
def Result.get (r : Result) : Option (Any × Result) :=
  if !r.isValid_ then
    some (Any.ofCStr "", r)
  else
    match r.sem_.wait with
    | none => none
    | some s => some (r.any_, { r with sem_ := s, any_ := Any.unset })

/-- A task object: `result_` is the Result the back-pointer refers to (`none` is
`nullptr`), `runValue` what the overriding `run()` returns, and `runCalls` counts the
invocations of `run()` (history). -/
structure Task where
  result_ : Option Result
  runValue : Any
  runCalls : Nat
  deriving DecidableEq, Repr

/-- `Task::Task()`, lines 274-275, for a task whose `run()` returns `v`. -/
def Task.ctor (v : Any) : Task :=
  { result_ := none, runValue := v, runCalls := 0 }

/-- `Task::setResult`, lines 269-272. -/
def Task.setResult (t : Task) (res : Result) : Task :=
  { t with result_ := some res }

/-- `Task::exec`, lines 277-283: `run()` is evaluated as the argument of `setVal`,
inside the null test. -/
def Task.exec (t : Task) : Task :=
  match t.result_ with
  | some r => { t with result_ := some (r.setVal t.runValue), runCalls := t.runCalls + 1 }
  | none => t

/-! ## The pool and the world around it -/

/-- `Thread`, lines 232-256: the identifier drawn from `generateId_`. -/
structure Thread where
  threadId_ : Int
  deriving DecidableEq, Repr

/-- The data members of `ThreadPool` in the order of the constructor, lines 10-19.
`threads_` is the `unordered_map` from identifier to `unique_ptr<Thread>`, as an
association list with at most one entry per key; the value `none` is a null pointer. -/
structure ThreadPool where
  threads_ : List (Int × Option Thread)
  initThreadSize_ : Int
  taskSize_ : Int
  taskQue_ : List Nat
  taskQueMaxThreadHold_ : Int
  poolMode_ : PoolMode
  isPoolRunning_ : Bool
  idleThreadSize_ : Int
  threadSizeThreadhold_ : Int
  curThreadSize_ : Int
  deriving DecidableEq, Repr

/-- `ThreadPool::ThreadPool()`, lines 10-19; `hw` is `hardware_concurrency()`. -/
def ThreadPool.ctor (hw : Int) : ThreadPool :=
  { threads_ := []
    initThreadSize_ := hw
    taskSize_ := 0
    taskQue_ := []
    taskQueMaxThreadHold_ := TASK_MAX_THREADHOLD
    poolMode_ := PoolMode.MODE_FIXED
    isPoolRunning_ := false
    idleThreadSize_ := 0
    threadSizeThreadhold_ := THREAD_MAX_THREADHOLD
    curThreadSize_ := 0 }

/-- `ThreadPool::checkRunningState`, lines 36-39. -/
def ThreadPool.checkRunningState (p : ThreadPool) : Bool :=
  p.isPoolRunning_

/-- `ThreadPool::setMode`, lines 43-48. -/
def ThreadPool.setMode (p : ThreadPool) (mode : PoolMode) : ThreadPool :=
  if p.checkRunningState then p else { p with poolMode_ := mode }

/-- `ThreadPool::setThreadSizeThreadHold`, lines 51-58. -/
def ThreadPool.setThreadSizeThreadHold (p : ThreadPool) (threadhold : Int) : ThreadPool :=
  if p.checkRunningState then p
  else if p.poolMode_ = PoolMode.MODE_CACHED then { p with threadSizeThreadhold_ := threadhold }
  else p

/-- `ThreadPool::setTaskQueMaxThreadHold`, lines 61-66. -/
def ThreadPool.setTaskQueMaxThreadHold (p : ThreadPool) (threadhold : Int) : ThreadPool :=
  if p.checkRunningState then p else { p with taskQueMaxThreadHold_ := threadhold }

/-- `threads_.emplace(k, v)`: inserts only when the key is absent. -/
def regEmplace (m : List (Int × Option Thread)) (k : Int) (v : Thread) :
    List (Int × Option Thread) :=
  match m.lookup k with
  | some _ => m
  | none => m ++ [(k, some v)]

/-- `threads_[k]`: the entry under `k`, inserted as a null pointer when the key is
absent. Returns the registry afterwards and the pointer found. -/
def regIndex (m : List (Int × Option Thread)) (k : Int) :
    List (Int × Option Thread) × Option Thread :=
  match m.lookup k with
  | some e => (m, e)
  | none => (m ++ [(k, none)], none)

/-- `threads_.erase(k)`. -/
def regErase (m : List (Int × Option Thread)) (k : Int) : List (Int × Option Thread) :=
  m.filter (fun e => e.1 != k)

/-- Where a worker's execution thread stands in `threadFunc`, lines 141-229. -/
inductive Pc where
  /-- The `std::thread` exists; `threadFunc` has not yet read the clock (line 143). -/
  | entry
  /-- At the top of `for(;;)`, about to lock `taskQueMtx_` (line 149). -/
  | acquire
  /-- Inside `notEmpty_.wait_for` / `notEmpty_.wait` with the lock released. -/
  | waiting
  /-- Past line 219 with the lock released, holding `task`; `ticket` is the position
  of this dequeue among all dequeues (history). -/
  | running (ticket : Nat) (task : Nat)
  /-- After `task->exec()` returned, before lines 226-227. -/
  | completing
  /-- The function `threadFunc` has returned. -/
  | exited
  deriving DecidableEq, Repr

/-- One detached execution thread created by `Thread::start`, lines 246-251:
the argument `threadid` and the local `lastTime` of `threadFunc`. `enteredAt` is the
clock at which the thread entered `threadFunc` and `lastDone` the clock at which it
last finished a task (line 226), `none` while it has finished none (both history). -/
structure Proc where
  threadid : Int
  pc : Pc
  lastTime : Nat
  enteredAt : Nat
  lastDone : Option Nat
  deriving DecidableEq, Repr

/-- Where the thread that runs `~ThreadPool`, lines 22-33, stands. -/
inductive DtorState where
  | notCalled
  /-- Lines 24-25 done, about to lock and test the predicate of line 31. -/
  | entered
  /-- Asleep on `exitCond_`; the predicate was false when last tested. -/
  | blocked
  | returned
  deriving DecidableEq, Repr

/-- The pool, the static `Thread::generateId_`, the execution threads and the clock.
`exitNotified` counts the calls of `exitCond_.notify_all()`; `accepted` lists the
tasks enqueued, `dequeued` the tasks popped, `execLog` the `(ticket, task)` pairs
on which a worker called `exec` (all four are history). -/
structure World where
  pool : ThreadPool
  generateId_ : Int
  procs : List Proc
  now : Nat
  dtor : DtorState
  exitNotified : Nat
  accepted : List Nat
  dequeued : List Nat
  execLog : List (Nat × Nat)
  deriving DecidableEq, Repr

/-- A world around a pool on which nothing has run yet: `g` is the current value of
`Thread::generateId_`, `t` the clock. -/
def World.init (p : ThreadPool) (g : Int) (t : Nat) : World :=
  { pool := p, generateId_ := g, procs := [], now := t, dtor := DtorState.notCalled,
    exitNotified := 0, accepted := [], dequeued := [], execLog := [] }

/-- `Thread::start`, lines 246-251: a detached thread that will run
`threadFunc(threadId_)`. -/
def spawnProc (w : World) (th : Thread) : World :=
  { w with procs := w.procs ++ [{ threadid := th.threadId_, pc := Pc.entry, lastTime := 0, enteredAt := 0, lastDone := none }] }

/-- Lines 97-105 of `submitTask`: `Thread::Thread` draws the identifier and bumps
`generateId_` (line 234), `emplace` registers the worker, `threads_[threadId]` finds
it again and starts it. After `emplace` the key is present; identifiers drawn from
the counter are fresh in every state reached from `start`, so the entry found is the
worker just made (`spawnWorker_fresh`). -/
def spawnWorker (w : World) : World :=
  let threadId := w.generateId_
  let reg := regEmplace w.pool.threads_ threadId { threadId_ := threadId }
  let w1 : World := { w with generateId_ := w.generateId_ + 1,
                             pool := { w.pool with threads_ := reg } }
  let w2 : World :=
    match reg.lookup threadId with
    | some (some th) => spawnProc w1 th
    | _ => w1
  { w2 with pool := { w2.pool with idleThreadSize_ := w2.pool.idleThreadSize_ + 1,
                                   curThreadSize_ := w2.pool.curThreadSize_ + 1 } }

/-- The test of lines 90-92, read after `taskSize_++`. -/
def growCond (p : ThreadPool) : Bool :=
  p.poolMode_ = PoolMode.MODE_CACHED
    && decide (p.taskSize_ > p.idleThreadSize_)
    && decide (p.curThreadSize_ < p.threadSizeThreadhold_)

/-- Lines 83-84 of `submitTask`: the task goes to the back of the queue. -/
def enqueueTask (w : World) (sp : Nat) : World :=
  { w with pool := { w.pool with taskQue_ := w.pool.taskQue_ ++ [sp],
                                 taskSize_ := w.pool.taskSize_ + 1 },
           accepted := w.accepted ++ [sp] }

/-- `ThreadPool::submitTask`, lines 70-109, from the evaluation of the predicate of
`wait_for` that decides the call: the predicate is true (at once or after a wake-up
within the second) and the task is accepted, or it is false when the second is over
and the call returns `Result(sp, false)`. -/
def submitTask (w : World) (sp : Nat) : World × Result :=
  if w.pool.taskQue_.length < toSizeT w.pool.taskQueMaxThreadHold_ then
    let w1 := enqueueTask w sp
    let w2 : World := if growCond w1.pool then spawnWorker w1 else w1
    (w2, Result.ctor sp true)
  else
    (w, Result.ctor sp false)

/-- The first loop of `start`, lines 122-130, with `k` iterations left. -/
def createThreads : Nat → World → World
  | 0, w => w
  | k + 1, w =>
    let threadId := w.generateId_
    createThreads k
      { w with generateId_ := w.generateId_ + 1,
               pool := { w.pool with
                 threads_ := regEmplace w.pool.threads_ threadId { threadId_ := threadId } } }

/-- The second loop of `start`, lines 133-137, at index `i` with `k` iterations left.
`threads_[i]` on an absent key inserts a null `unique_ptr`, and `->start()` on a null
pointer is undefined behaviour: the loop stops with `Except.error` holding the state
reached, the inserted null entry included. -/
def startThreads (i : Int) : Nat → World → Except World World
  | 0, w => Except.ok w
  | k + 1, w =>
    let w0 : World := { w with pool := { w.pool with threads_ := (regIndex w.pool.threads_ i).1 } }
    match (regIndex w.pool.threads_ i).2 with
    | none => Except.error w0
    | some th =>
      let w1 := spawnProc w0 th
      startThreads (i + 1) k
        { w1 with pool := { w1.pool with idleThreadSize_ := w1.pool.idleThreadSize_ + 1 } }

/-- `ThreadPool::start`, lines 112-138. -/
def start (w : World) (initThreadSize : Int) : Except World World :=
  let w1 : World :=
    { w with pool := { w.pool with isPoolRunning_ := true,
                                   initThreadSize_ := initThreadSize,
                                   curThreadSize_ := initThreadSize } }
  startThreads 0 w1.pool.initThreadSize_.toNat (createThreads w1.pool.initThreadSize_.toNat w1)

/-- Replace the state of execution thread `i`. -/
def setProc (w : World) (i : Nat) (pr : Proc) : World :=
  { w with procs := w.procs.set i pr }

/-- Lines 161-164: the worker found the queue empty and the pool stopped. It leaves
the registry and notifies `exitCond_`, which wakes a destructor asleep on it. -/
def exitOnShutdown (w : World) (i : Nat) (pr : Proc) : World :=
  setProc
    { w with pool := { w.pool with threads_ := regErase w.pool.threads_ pr.threadid },
             exitNotified := w.exitNotified + 1,
             dtor := if w.dtor = DtorState.blocked then DtorState.entered else w.dtor }
    i { pr with pc := Pc.exited }

/-- Lines 207-218: the worker takes the task at the front of the queue. -/
def takeTask (w : World) (i : Nat) (pr : Proc) (task : Nat) (rest : List Nat) : World :=
  setProc
    { w with pool := { w.pool with idleThreadSize_ := w.pool.idleThreadSize_ - 1,
                                   taskQue_ := rest,
                                   taskSize_ := w.pool.taskSize_ - 1 },
             dequeued := w.dequeued ++ [task] }
    i { pr with pc := Pc.running w.dequeued.length task }

/-- Lines 156-219 of `threadFunc`, from the test `taskQue_.size() == 0` with the lock
held, up to the point where the lock is released. -/
def loopTest (w : World) (i : Nat) (pr : Proc) : World :=
  match w.pool.taskQue_ with
  | [] =>
    if !w.pool.isPoolRunning_ then exitOnShutdown w i pr
    else setProc w i { pr with pc := Pc.waiting }
  | task :: rest => takeTask w i pr task rest

/-- The test of lines 175-176: `dur.count() >= THREAD_MAX_IDEL_TIME` on the whole
seconds between `lastTime` and now, and `curThreadSize_ > initThreadSize_`. -/
def reclaimCond (w : World) (pr : Proc) : Bool :=
  decide (((w.now - pr.lastTime) / ticksPerSecond : Nat) ≥ THREAD_MAX_IDEL_TIME)
    && decide (w.pool.curThreadSize_ > w.pool.initThreadSize_)

/-- Lines 182-186: the worker takes itself out of the pool. -/
def reclaim (w : World) (i : Nat) (pr : Proc) : World :=
  setProc
    { w with pool := { w.pool with threads_ := regErase w.pool.threads_ pr.threadid,
                                   curThreadSize_ := w.pool.curThreadSize_ - 1,
                                   idleThreadSize_ := w.pool.idleThreadSize_ - 1 } }
    i { pr with pc := Pc.exited }

/-- The return of the wait of line 171 (Cached, `timedOut` says whether `wait_for`
returned `cv_status::timeout`) or of line 193 (Fixed, which has no timeout), and the
code that follows with the lock held again. -/
def wakeUp (w : World) (i : Nat) (pr : Proc) (timedOut : Bool) : Option World :=
  match w.pool.poolMode_ with
  | PoolMode.MODE_CACHED =>
    if timedOut && reclaimCond w pr then some (reclaim w i pr) else some (loopTest w i pr)
  | PoolMode.MODE_FIXED =>
    if timedOut then none else some (loopTest w i pr)

/-- The points at which an execution thread inside `threadFunc` can be interleaved
with the other threads: each move runs from one such point to the next. -/
inductive WorkerMove where
  /-- Enter `threadFunc` and read the clock (line 143). -/
  | begin
  /-- Lock the mutex at line 149 and run to the next release of the lock. -/
  | acquire
  /-- Return from the wait; `timedOut` is whether `wait_for` returned
  `cv_status::timeout`. A wait may return at any time (a notification, the end of the
  second, or a spurious wake-up), so the move is possible whenever the worker waits. -/
  | wake (timedOut : Bool)
  /-- Call `task->exec()` (line 224). -/
  | exec
  /-- Run lines 226-227. -/
  | complete
  deriving DecidableEq, Repr

/-- `ThreadPool::threadFunc`, lines 141-229, for the execution thread at index `i`
whose state is `pr`: the code between two interleaving points. `none` when the thread
is not at the point the move starts from. -/
def threadFunc (w : World) (i : Nat) (pr : Proc) : WorkerMove → Option World
  | WorkerMove.begin =>
    if pr.pc = Pc.entry then
      some (setProc w i { pr with pc := Pc.acquire, lastTime := w.now, enteredAt := w.now })
    else none
  | WorkerMove.acquire =>
    if pr.pc = Pc.acquire then some (loopTest w i pr) else none
  | WorkerMove.wake timedOut =>
    if pr.pc = Pc.waiting then wakeUp w i pr timedOut else none
  | WorkerMove.exec =>
    match pr.pc with
    | Pc.running ticket task =>
      some (setProc { w with execLog := w.execLog ++ [(ticket, task)] } i
              { pr with pc := Pc.completing })
    | _ => none
  | WorkerMove.complete =>
    if pr.pc = Pc.completing then
      some (setProc
        { w with pool := { w.pool with idleThreadSize_ := w.pool.idleThreadSize_ + 1 } }
        i { pr with pc := Pc.acquire, lastTime := w.now, lastDone := some w.now })
    else none

/-- The moves of the thread that destroys the pool. -/
inductive DtorMove where
  /-- Lines 24-25. They run without the lock: when that falls between a worker's test
  of line 159 and its wait of line 171 the notification is lost, which here is this
  move right after that worker's move. -/
  | begin
  /-- Test the predicate of line 31 with the lock held. -/
  | check
  /-- The wait on `exitCond_` wakes without a notification. -/
  | spurious
  deriving DecidableEq, Repr

/-- `ThreadPool::~ThreadPool`, lines 22-33: `exitCond_.wait(lock, pred)` returns only
when `threads_.size() == 0` holds at a test, and sleeps otherwise. -/
def destructor (w : World) : DtorMove → Option World
  | DtorMove.begin =>
    if w.dtor = DtorState.notCalled then
      some { w with pool := { w.pool with isPoolRunning_ := false }, dtor := DtorState.entered }
    else none
  | DtorMove.check =>
    if w.dtor = DtorState.entered then
      if w.pool.threads_.length = 0 then some { w with dtor := DtorState.returned }
      else some { w with dtor := DtorState.blocked }
    else none
  | DtorMove.spurious =>
    if w.dtor = DtorState.blocked then some { w with dtor := DtorState.entered } else none

/-- The moves of the threads around one pool. -/
inductive Action where
  /-- A producer's `submitTask(sp)`. -/
  | submit (sp : Nat)
  /-- A move of the execution thread at index `i`. -/
  | worker (i : Nat) (mv : WorkerMove)
  /-- The clock advances by `d` ticks. -/
  | tick (d : Nat)
  /-- A move of the destroying thread. -/
  | destroy (mv : DtorMove)
  deriving DecidableEq, Repr

/-- One move; `none` when the move is not possible in this state. Once the
destructor has returned the pool is gone and nothing may touch it. -/
def step (a : Action) (w : World) : Option World :=
  if w.dtor = DtorState.returned then none else
  match a with
  | Action.submit sp => some (submitTask w sp).1
  | Action.tick d => some { w with now := w.now + d }
  | Action.destroy mv => destructor w mv
  | Action.worker i mv =>
    match w.procs[i]? with
    | some pr => threadFunc w i pr mv
    | none => none

/-- A trace of moves from `w`; `none` when one of them is not possible. -/
def run : List Action → World → Option World
  | [], w => some w
  | a :: rest, w => (step a w).bind (run rest)

/-- A world in which `start` has not run and nothing has been submitted. -/
def World.Fresh (w : World) : Prop :=
  w.pool.isPoolRunning_ = false ∧ w.pool.threads_ = [] ∧ w.pool.taskQue_ = [] ∧
  w.pool.taskSize_ = 0 ∧ w.pool.idleThreadSize_ = 0 ∧ w.procs = [] ∧
  w.dtor = DtorState.notCalled ∧ w.exitNotified = 0 ∧
  w.accepted = [] ∧ w.dequeued = [] ∧ w.execLog = []

instance (w : World) : Decidable w.Fresh := by
  unfold World.Fresh
  infer_instance

/-- The world `start` leaves behind, whether it returned or stopped. -/
def started (w : World) (initThreadSize : Int) : World :=
  match start w initThreadSize with
  | Except.ok w1 => w1
  | Except.error w1 => w1

/-- The world after a trace, or the world before it when the trace is not possible. -/
def afterRun (acts : List Action) (w : World) : World :=
  (run acts w).getD w

/-- A pool as constructed (Fixed mode), no worker constructed before, clock at 0. -/
def demoFixed : World :=
  World.init (ThreadPool.ctor 8) 0 0

/-- A pool switched to Cached mode as in `main.cpp`, line 43. -/
def demoCached : World :=
  World.init ((ThreadPool.ctor 8).setMode PoolMode.MODE_CACHED) 0 0

/-- A Fixed pool with queue capacity 2, started with one worker, two tasks queued. -/
def demoFull : World :=
  afterRun [Action.submit 5, Action.submit 6]
    (started (World.init ((ThreadPool.ctor 8).setTaskQueMaxThreadHold 2) 0 0) 1)

/-- A Fixed pool with queue capacity 2, started with one worker, one task queued. -/
def demoHalf : World :=
  afterRun [Action.submit 5]
    (started (World.init ((ThreadPool.ctor 8).setTaskQueMaxThreadHold 2) 0 0) 1)

/-- A pool whose queue capacity was set to -1, started with one worker. -/
def demoNegative : World :=
  started (World.init ((ThreadPool.ctor 8).setTaskQueMaxThreadHold (-1)) 0 0) 1

/-- A pool constructed after one worker was already constructed in the process. -/
def demoStale : World :=
  World.init (ThreadPool.ctor 8) 1 0

/-! ## Invariants and sample traces -/

/-- The facts about the pool that every move keeps: `n` is the argument of `start`,
`m` the mode and `c` the ceiling with which the pool was started. -/
structure PoolInv (n : Int) (m : PoolMode) (c : Int) (w : World) : Prop where
  mode_eq : w.pool.poolMode_ = m
  ceil_eq : w.pool.threadSizeThreadhold_ = c
  init_eq : w.pool.initThreadSize_ = n
  init_le : n ≤ w.pool.curThreadSize_
  ceil_le : n ≤ c → w.pool.curThreadSize_ ≤ c
  fixed_cur : m = PoolMode.MODE_FIXED → w.pool.curThreadSize_ = n
  fixed_reg : m = PoolMode.MODE_FIXED → w.pool.isPoolRunning_ = true →
    w.pool.threads_.length = n.toNat
  size_eq : w.pool.taskSize_ = w.pool.taskQue_.length
  fifo : w.dequeued ++ w.pool.taskQue_ = w.accepted
  fresh : ∀ e ∈ w.pool.threads_, e.1 < w.generateId_
  gone : w.dtor = DtorState.returned → w.pool.threads_ = []
  keys : (w.pool.threads_.map Prod.fst).Nodup

/-- The ticket of the task a worker holds and has not yet executed. -/
def ticketOf (p : Proc) : Option Nat :=
  match p.pc with
  | Pc.running k _ => some k
  | _ => none

/-- The tickets of all tasks dequeued and not yet executed. -/
def inflight (ps : List Proc) : List Nat :=
  ps.filterMap ticketOf

/-- The facts about tickets that every move keeps: no ticket is both executed and
held, or held twice, or executed twice, and every ticket names the task that was
dequeued at that position. -/
structure LogInv (w : World) : Prop where
  nodup : (w.execLog.map Prod.fst ++ inflight w.procs).Nodup
  held : ∀ p ∈ w.procs, ∀ k t, p.pc = Pc.running k t → w.dequeued[k]? = some t
  logged : ∀ e ∈ w.execLog, w.dequeued[e.1]? = some e.2

/-- A trace on a Fixed pool of two workers: four submissions, both workers take and
run a task, one of them completes and takes the next, the other goes on. -/
def demoFixedTrace : List Action :=
  [Action.submit 1, Action.submit 2, Action.submit 3, Action.submit 4,
   Action.worker 0 .begin, Action.worker 1 .begin, Action.worker 0 .acquire, Action.worker 1 .acquire,
   Action.tick 5, Action.worker 0 .exec, Action.worker 0 .complete, Action.worker 0 .acquire,
   Action.worker 1 .exec, Action.worker 0 .exec, Action.worker 1 .complete, Action.worker 0 .complete,
   Action.worker 1 .acquire, Action.worker 1 .exec, Action.worker 1 .complete, Action.worker 1 .acquire, Action.worker 0 .acquire]

/-- What ties the local `lastTime` of one execution thread to its history at clock
`t`: before line 143 it has finished no task; from then on `lastTime` is the clock at
which it last finished a task, or at which it entered `threadFunc` while it has
finished none, and that clock is not in the future. -/
def TimeOk (t : Nat) (p : Proc) : Prop :=
  (p.pc = Pc.entry → p.lastDone = none) ∧
  (p.pc ≠ Pc.entry → p.lastTime = p.lastDone.getD p.enteredAt ∧ p.lastTime ≤ t)

/-- `TimeOk` for every execution thread of the world. -/
def TimeInv (w : World) : Prop :=
  ∀ p ∈ w.procs, TimeOk w.now p

/-- Worker `i` spends `k` seconds idle: each second its timed wait of line 171 returns
`cv_status::timeout` and, when it is not reclaimed, it waits again. -/
def idleSecondsOf (i : Nat) : Nat → List Action
  | 0 => []
  | k + 1 => Action.tick ticksPerSecond :: Action.worker i (.wake true) :: idleSecondsOf i k

/-- A trace on a Cached pool started with no worker: two submissions spawn workers 0
and 1; worker 0 runs the first task and takes the second, which it is still running;
worker 1 enters `threadFunc` at clock 3, finds the queue empty and waits; nine timed
waits of one second expire with the worker kept, and the tenth second passes. Worker 1
has not run any task. -/
def demoNeverRanTrace : List Action :=
  [Action.submit 7, Action.submit 8, Action.worker 0 .begin, Action.worker 0 .acquire,
   Action.worker 0 .exec, Action.tick 3, Action.worker 0 .complete, Action.worker 0 .acquire,
   Action.worker 1 .begin, Action.worker 1 .acquire] ++ idleSecondsOf 1 9 ++
  [Action.tick ticksPerSecond]

/-- Worker 0 spends `k` seconds idle: each second its timed wait of line 171 returns
`cv_status::timeout` and, when it is not reclaimed, it waits again. -/
def idleSeconds : Nat → List Action
  | 0 => []
  | k + 1 => Action.tick ticksPerSecond :: Action.worker 0 (.wake true) :: idleSeconds k

/-- A trace on a Cached pool started with no worker: one submission spawns worker 0,
which runs the task, completes at clock 3 and waits; nine timed waits of one second
expire with the worker kept, and the tenth second passes. -/
def demoIdleTrace : List Action :=
  [Action.submit 7, Action.worker 0 .begin, Action.worker 0 .acquire, Action.worker 0 .exec,
   Action.tick 3, Action.worker 0 .complete, Action.worker 0 .acquire] ++ idleSeconds 9 ++
  [Action.tick ticksPerSecond]

/-- A trace on a Cached pool started with no worker: one submission spawns worker 0,
which runs the task, completes at clock 3 and waits; nine timed waits of one second
expire with the worker kept (the pool is running at each test of line 159) and the
tenth wait begins; the destructor stops the pool, finds the registry not empty and
sleeps on `exitCond_`; the tenth second passes. -/
def demoShutdownTrace : List Action :=
  [Action.submit 7, Action.worker 0 .begin, Action.worker 0 .acquire, Action.worker 0 .exec,
   Action.tick 3, Action.worker 0 .complete, Action.worker 0 .acquire] ++ idleSeconds 9 ++
  [Action.destroy .begin, Action.destroy .check, Action.tick ticksPerSecond]

/-! ## How one move changes the world -/

/-- Case analysis on a move: whatever holds of the result of each block of code
holds of the result of every move. -/
theorem step_cases (Q : World → Prop) (w : World) (a : Action)
    (hreject : ¬ w.pool.taskQue_.length < toSizeT w.pool.taskQueMaxThreadHold_ → Q w)
    (haccept : ∀ sp, w.pool.taskQue_.length < toSizeT w.pool.taskQueMaxThreadHold_ →
      growCond (enqueueTask w sp).pool = false → Q (enqueueTask w sp))
    (hgrow : ∀ sp, w.pool.taskQue_.length < toSizeT w.pool.taskQueMaxThreadHold_ →
      growCond (enqueueTask w sp).pool = true → Q (spawnWorker (enqueueTask w sp)))
    (htick : ∀ d, Q { w with now := w.now + d })
    (hdtorBegin : w.dtor = DtorState.notCalled →
      Q { w with pool := { w.pool with isPoolRunning_ := false }, dtor := DtorState.entered })
    (hdtor : ∀ d, w.dtor ≠ DtorState.notCalled →
      (d = DtorState.returned → w.dtor = DtorState.entered ∧ w.pool.threads_ = []) →
      Q { w with dtor := d })
    (hbegin : ∀ i pr, w.procs[i]? = some pr → pr.pc = Pc.entry →
      Q (setProc w i { pr with pc := Pc.acquire, lastTime := w.now, enteredAt := w.now }))
    (hexit : ∀ i pr, w.procs[i]? = some pr → (pr.pc = Pc.acquire ∨ pr.pc = Pc.waiting) →
      w.pool.taskQue_ = [] → w.pool.isPoolRunning_ = false → Q (exitOnShutdown w i pr))
    (hwait : ∀ i pr, w.procs[i]? = some pr → (pr.pc = Pc.acquire ∨ pr.pc = Pc.waiting) →
      w.pool.taskQue_ = [] → w.pool.isPoolRunning_ = true →
      Q (setProc w i { pr with pc := Pc.waiting }))
    (htake : ∀ i pr task rest, w.procs[i]? = some pr →
      (pr.pc = Pc.acquire ∨ pr.pc = Pc.waiting) →
      w.pool.taskQue_ = task :: rest → Q (takeTask w i pr task rest))
    (hreclaim : ∀ i pr, a = Action.worker i (WorkerMove.wake true) → w.procs[i]? = some pr → pr.pc = Pc.waiting →
      w.pool.poolMode_ = PoolMode.MODE_CACHED → reclaimCond w pr = true → Q (reclaim w i pr))
    (hexec : ∀ i pr ticket task, w.procs[i]? = some pr → pr.pc = Pc.running ticket task →
      Q (setProc { w with execLog := w.execLog ++ [(ticket, task)] } i
          { pr with pc := Pc.completing }))
    (hcomplete : ∀ i pr, w.procs[i]? = some pr → pr.pc = Pc.completing →
      Q (setProc
          { w with pool := { w.pool with idleThreadSize_ := w.pool.idleThreadSize_ + 1 } }
          i { pr with pc := Pc.acquire, lastTime := w.now, lastDone := some w.now }))
    (w' : World) (h : step a w = some w') : Q w' := by
  have hloop : ∀ i pr, w.procs[i]? = some pr → (pr.pc = Pc.acquire ∨ pr.pc = Pc.waiting) →
      Q (loopTest w i pr) := by
    intro i pr hi hpc
    unfold loopTest
    split
    · next hq =>
      by_cases hr : w.pool.isPoolRunning_ = true
      · simp only [hr, Bool.not_true, Bool.false_eq_true, if_false]
        exact hwait i pr hi hpc hq hr
      · have hr2 : w.pool.isPoolRunning_ = false := by simpa using hr
        simp only [hr2, Bool.not_false, if_true]
        exact hexit i pr hi hpc hq hr2
    · next task rest hq => exact htake i pr task rest hi hpc hq
  unfold step at h
  split at h
  · exact absurd h (by simp)
  · next hnr =>
    cases a with
    | submit sp =>
      simp only [Option.some.injEq] at h
      subst h
      unfold submitTask
      by_cases hc : w.pool.taskQue_.length < toSizeT w.pool.taskQueMaxThreadHold_
      · simp only [hc, if_true]
        by_cases hg : growCond (enqueueTask w sp).pool = true
        · simp only [hg, if_true]; exact hgrow sp hc hg
        · have hg2 : growCond (enqueueTask w sp).pool = false := by simpa using hg
          simp only [hg2, Bool.false_eq_true, if_false]; exact haccept sp hc hg2
      · simp only [hc, if_false]; exact hreject hc
    | tick d =>
      simp only [Option.some.injEq] at h
      subst h; exact htick d
    | destroy mv =>
      simp only at h
      cases mv with
      | begin =>
        simp only [destructor] at h
        split at h
        · next hd => simp only [Option.some.injEq] at h; subst h; exact hdtorBegin hd
        · exact absurd h (by simp)
      | check =>
        simp only [destructor] at h
        split at h
        · next hd =>
          split at h
          · next hl =>
            simp only [Option.some.injEq] at h; subst h
            exact hdtor _ (by rw [hd]; simp) (fun _ => ⟨hd, List.length_eq_zero.mp hl⟩)
          · simp only [Option.some.injEq] at h; subst h
            exact hdtor _ (by rw [hd]; simp) (by simp)
        · exact absurd h (by simp)
      | spurious =>
        simp only [destructor] at h
        split at h
        · next hd =>
          simp only [Option.some.injEq] at h; subst h
          exact hdtor _ (by rw [hd]; simp) (by simp)
        · exact absurd h (by simp)
    | worker i mv =>
      simp only at h
      split at h
      · next pr hi =>
        cases mv with
        | begin =>
          simp only [threadFunc] at h
          split at h
          · next hpc => simp only [Option.some.injEq] at h; subst h; exact hbegin i pr hi hpc
          · exact absurd h (by simp)
        | acquire =>
          simp only [threadFunc] at h
          split at h
          · next hpc =>
            simp only [Option.some.injEq] at h; subst h; exact hloop i pr hi (Or.inl hpc)
          · exact absurd h (by simp)
        | wake timedOut =>
          simp only [threadFunc] at h
          split at h
          · next hpc =>
            unfold wakeUp at h
            split at h
            · next hm =>
              split at h
              · next hc =>
                simp only [Option.some.injEq] at h; subst h
                simp only [Bool.and_eq_true] at hc
                exact hreclaim i pr (by rw [hc.1]) hi hpc hm hc.2
              · simp only [Option.some.injEq] at h; subst h; exact hloop i pr hi (Or.inr hpc)
            · split at h
              · exact absurd h (by simp)
              · simp only [Option.some.injEq] at h; subst h; exact hloop i pr hi (Or.inr hpc)
          · exact absurd h (by simp)
        | exec =>
          simp only [threadFunc] at h
          split at h
          · next ticket task hpc =>
            simp only [Option.some.injEq] at h; subst h; exact hexec i pr ticket task hi hpc
          · exact absurd h (by simp)
        | complete =>
          simp only [threadFunc] at h
          split at h
          · next hpc => simp only [Option.some.injEq] at h; subst h; exact hcomplete i pr hi hpc
          · exact absurd h (by simp)
      · exact absurd h (by simp)

/-! ## The registry -/

theorem lookup_none_of_keys_lt (m : List (Int × Option Thread)) (g : Int)
    (h : ∀ e ∈ m, e.1 < g) : m.lookup g = none := by
  induction m with
  | nil => rfl
  | cons e m ih =>
    obtain ⟨k, v⟩ := e
    have hk : k < g := h (k, v) (List.mem_cons_self _ _)
    have hne : (g == k) = false := by
      simp only [beq_eq_false_iff_ne, ne_eq]; omega
    simp only [List.lookup, hne]
    exact ih (fun e he => h e (List.mem_cons_of_mem _ he))

theorem regEmplace_fresh (m : List (Int × Option Thread)) (g : Int) (v : Thread)
    (h : ∀ e ∈ m, e.1 < g) : regEmplace m g v = m ++ [(g, some v)] := by
  unfold regEmplace
  rw [lookup_none_of_keys_lt m g h]

theorem lookup_append_self (m : List (Int × Option Thread)) (g : Int) (v : Option Thread)
    (h : m.lookup g = none) : (m ++ [(g, v)]).lookup g = some v := by
  induction m with
  | nil => simp [List.lookup]
  | cons e m ih =>
    obtain ⟨k, u⟩ := e
    cases hk : (g == k) with
    | true => simp [List.lookup, hk] at h
    | false =>
      simp only [List.lookup, hk] at h
      simp only [List.cons_append, List.lookup, hk]
      exact ih h

theorem lookup_append_ne (m : List (Int × Option Thread)) (g j : Int) (v : Option Thread) (h : j ≠ g) :
    (m ++ [(g, v)]).lookup j = m.lookup j := by
  induction m with
  | nil =>
    have hne : (j == g) = false := by simpa using h
    simp [List.lookup, hne]
  | cons e m ih =>
    obtain ⟨k, u⟩ := e
    cases hk : (j == k) with
    | true => simp [List.lookup, hk]
    | false => simp only [List.cons_append, List.lookup, hk]; exact ih

theorem regIndex_of_lookup (m : List (Int × Option Thread)) (k : Int) (e : Option Thread)
    (h : m.lookup k = some e) : regIndex m k = (m, e) := by
  unfold regIndex
  rw [h]

theorem regIndex_of_some (m : List (Int × Option Thread)) (k : Int) (th : Thread)
    (h : (regIndex m k).2 = some th) : (regIndex m k).1 = m ∧ m.lookup k = some (some th) := by
  unfold regIndex at h ⊢
  cases hl : m.lookup k with
  | none => rw [hl] at h; simp at h
  | some e =>
    rw [hl] at h
    simp only at h
    simp only [h, and_self]

theorem mem_regEmplace (m : List (Int × Option Thread)) (g : Int) (v : Thread)
    (e : Int × Option Thread) (he : e ∈ regEmplace m g v) : e ∈ m ∨ e = (g, some v) := by
  unfold regEmplace at he
  split at he
  · exact Or.inl he
  · simpa using he

theorem mem_regErase (m : List (Int × Option Thread)) (k : Int) (e : Int × Option Thread)
    (he : e ∈ regErase m k) : e ∈ m :=
  (List.mem_filter.mp he).1

theorem lookup_filter_ne (m : List (Int × Option Thread)) (k j : Int) (h : j ≠ k) :
    (m.filter (fun e => e.1 != k)).lookup j = m.lookup j := by
  induction m with
  | nil => rfl
  | cons e m ih =>
    obtain ⟨a, v⟩ := e
    by_cases hak : a = k
    · subst hak
      have h1 : (j == a) = false := by simpa using h
      simp [List.filter, List.lookup, h1, ih]
    · have h2 : (a != k) = true := by simpa using hak
      simp only [List.filter, h2, List.lookup]
      split
      · rfl
      · exact ih

theorem keys_nodup_erase (m : List (Int × Option Thread)) (k : Int)
    (h : (m.map Prod.fst).Nodup) : ((regErase m k).map Prod.fst).Nodup :=
  h.sublist (List.Sublist.map _ (List.filter_sublist _))

theorem keys_nodup_append (m : List (Int × Option Thread)) (g : Int) (v : Option Thread)
    (h : (m.map Prod.fst).Nodup) (hf : ∀ e ∈ m, e.1 < g) :
    ((m ++ [(g, v)]).map Prod.fst).Nodup := by
  rw [List.map_append, List.nodup_append]
  refine ⟨h, by simp, ?_⟩
  intro x hx hx2
  simp only [List.map_cons, List.map_nil, List.mem_singleton] at hx2
  rw [List.mem_map] at hx
  obtain ⟨e, he, hex⟩ := hx
  have := hf e he
  omega

/-- Erasing key `k` leaves every other key's entry as it was. -/
theorem lookup_regErase_ne (m : List (Int × Option Thread)) (k j : Int) (h : j ≠ k) :
    (regErase m k).lookup j = m.lookup j :=
  lookup_filter_ne m k j h

/-- Erasing key `k` leaves no entry under `k`. -/
theorem lookup_regErase_self (m : List (Int × Option Thread)) (k : Int) :
    (regErase m k).lookup k = none := by
  unfold regErase
  induction m with
  | nil => rfl
  | cons e m ih =>
    obtain ⟨a, v⟩ := e
    by_cases hak : a = k
    · subst hak
      simp [List.filter, ih]
    · have h2 : (a != k) = true := by simpa using hak
      have h3 : (k == a) = false := by
        simp only [beq_eq_false_iff_ne, ne_eq]; exact fun h => hak h.symm
      simp only [List.filter, h2, List.lookup, h3]
      exact ih

/-! ## Field by field: what each block of code changes -/

theorem growCond_iff (p : ThreadPool) :
    growCond p = true ↔
      p.poolMode_ = PoolMode.MODE_CACHED ∧ p.taskSize_ > p.idleThreadSize_ ∧
        p.curThreadSize_ < p.threadSizeThreadhold_ := by
  simp [growCond, and_assoc]

theorem reclaimCond_iff (w : World) (pr : Proc) :
    reclaimCond w pr = true ↔
      10 * ticksPerSecond ≤ w.now - pr.lastTime ∧
        w.pool.initThreadSize_ < w.pool.curThreadSize_ := by
  unfold reclaimCond THREAD_MAX_IDEL_TIME
  simp only [Bool.and_eq_true, decide_eq_true_eq, gt_iff_lt, ge_iff_le]
  have h : ((10 : Int) ≤ (((w.now - pr.lastTime) / ticksPerSecond : Nat) : Int)) ↔
      10 * ticksPerSecond ≤ w.now - pr.lastTime := by
    rw [show ((10 : Int) = ((10 : Nat) : Int)) from rfl, Int.ofNat_le,
      Nat.le_div_iff_mul_le (by unfold ticksPerSecond; omega)]
  rw [h]

/-- Modelled spawn under a fresh identifier: one registry entry, one execution
thread, both counters up by one, the identifier counter up by one. -/
theorem spawnWorker_fresh (w : World) (h : ∀ e ∈ w.pool.threads_, e.1 < w.generateId_) :
    spawnWorker w =
      { w with
        generateId_ := w.generateId_ + 1
        procs := w.procs ++ [{ threadid := w.generateId_, pc := Pc.entry, lastTime := 0, enteredAt := 0, lastDone := none }]
        pool := { w.pool with
          threads_ := w.pool.threads_ ++ [(w.generateId_, some { threadId_ := w.generateId_ })]
          idleThreadSize_ := w.pool.idleThreadSize_ + 1
          curThreadSize_ := w.pool.curThreadSize_ + 1 } } := by
  unfold spawnWorker
  simp only [regEmplace_fresh _ _ _ h,
    lookup_append_self _ _ _ (lookup_none_of_keys_lt _ _ h), spawnProc]

theorem spawnWorker_pool (w : World) :
    (spawnWorker w).pool =
      { w.pool with
        threads_ := regEmplace w.pool.threads_ w.generateId_ { threadId_ := w.generateId_ }
        idleThreadSize_ := w.pool.idleThreadSize_ + 1
        curThreadSize_ := w.pool.curThreadSize_ + 1 } := by
  unfold spawnWorker
  simp only []
  split <;> rfl

theorem spawnWorker_rest (w : World) :
    (spawnWorker w).generateId_ = w.generateId_ + 1 ∧ (spawnWorker w).now = w.now ∧
    (spawnWorker w).dtor = w.dtor ∧ (spawnWorker w).exitNotified = w.exitNotified ∧
    (spawnWorker w).accepted = w.accepted ∧ (spawnWorker w).dequeued = w.dequeued ∧
    (spawnWorker w).execLog = w.execLog := by
  unfold spawnWorker
  simp only []
  split <;> simp [spawnProc]

theorem spawnWorker_procs (w : World) :
    (spawnWorker w).procs = w.procs ∨
      ∃ t, (spawnWorker w).procs = w.procs ++ [{ threadid := t, pc := Pc.entry, lastTime := 0, enteredAt := 0, lastDone := none }] := by
  unfold spawnWorker
  simp only []
  split
  · next th _ => exact Or.inr ⟨th.threadId_, rfl⟩
  · exact Or.inl rfl

/-! ## What holds of the pool in every state after `start` -/

theorem step_not_returned {a : Action} {w w' : World} (h : step a w = some w') :
    w.dtor ≠ DtorState.returned := by
  intro hd
  unfold step at h
  simp [hd] at h

theorem poolInv_step {n : Int} {m : PoolMode} {c : Int} {w w' : World} {a : Action}
    (hinv : PoolInv n m c w) (h : step a w = some w') : PoolInv n m c w' := by
  have hnr := step_not_returned h
  obtain ⟨h1, h2, h3, h4, h5, h6, h7, h8, h9, h10, h11, h12⟩ := hinv
  refine step_cases (PoolInv n m c) w a ?_ ?_ ?_ ?_ ?_ ?_ ?_ ?_ ?_ ?_ ?_ ?_ ?_ w' h
  · intro _; exact ⟨h1, h2, h3, h4, h5, h6, h7, h8, h9, h10, h11, h12⟩
  · intro sp _ _
    refine ⟨h1, h2, h3, h4, h5, h6, h7, ?_, ?_, h10, h11, h12⟩
    · simp only [enqueueTask, List.length_append, List.length_singleton, h8]; push_cast; ring
    · simp only [enqueueTask, ← List.append_assoc, h9]
  · intro sp _ hg
    rw [growCond_iff] at hg
    have hf : ∀ e ∈ (enqueueTask w sp).pool.threads_, e.1 < (enqueueTask w sp).generateId_ := h10
    rw [spawnWorker_fresh _ hf]
    simp only [enqueueTask] at hg
    refine ⟨h1, h2, h3, ?_, ?_, ?_, ?_, ?_, ?_, ?_, ?_, ?_⟩
    · simp only [enqueueTask]; omega
    · intro _; simp only [enqueueTask]; omega
    · intro hm; rw [hm] at h1; rw [h1] at hg; exact absurd hg.1 (by decide)
    · intro hm; rw [hm] at h1; rw [h1] at hg; exact absurd hg.1 (by decide)
    · simp only [enqueueTask, List.length_append, List.length_singleton, h8]; push_cast; ring
    · simp only [enqueueTask, ← List.append_assoc, h9]
    · intro e he
      simp only [enqueueTask, List.mem_append, List.mem_singleton] at he ⊢
      rcases he with he | he
      · have := h10 e he; omega
      · rw [he]; simp
    · intro hd; exact absurd hd hnr
    · exact keys_nodup_append _ _ _ h12 h10
  · intro d; exact ⟨h1, h2, h3, h4, h5, h6, h7, h8, h9, h10, h11, h12⟩
  · intro _
    exact ⟨h1, h2, h3, h4, h5, h6, fun _ hr => absurd hr (by simp), h8, h9, h10,
      fun hd => absurd hd (by simp), h12⟩
  · intro d _ hd
    exact ⟨h1, h2, h3, h4, h5, h6, h7, h8, h9, h10, fun hr => (hd hr).2, h12⟩
  · intro i pr _ _; exact ⟨h1, h2, h3, h4, h5, h6, h7, h8, h9, h10, h11, h12⟩
  · intro i pr _ _ _ hr
    refine ⟨h1, h2, h3, h4, h5, h6, ?_, h8, h9, ?_, ?_, keys_nodup_erase _ _ h12⟩
    · intro _ hr2
      simp only [exitOnShutdown, setProc] at hr2
      rw [hr] at hr2; exact absurd hr2 (by simp)
    · intro e he
      exact h10 e (mem_regErase _ _ _ he)
    · intro hd
      simp only [exitOnShutdown, setProc] at hd
      split at hd
      · exact absurd hd (by simp)
      · exact absurd hd hnr
  · intro i pr _ _ _ _; exact ⟨h1, h2, h3, h4, h5, h6, h7, h8, h9, h10, h11, h12⟩
  · intro i pr task rest _ _ hq
    refine ⟨h1, h2, h3, h4, h5, h6, h7, ?_, ?_, h10, h11, h12⟩
    · simp only [takeTask, setProc]
      rw [h8, hq]; simp only [List.length_cons]; push_cast; ring
    · simp only [takeTask, setProc, List.append_assoc, List.singleton_append]
      rw [← h9, hq]
  · intro i pr _ _ _ hm hc
    rw [reclaimCond_iff] at hc
    refine ⟨h1, h2, h3, ?_, ?_, ?_, ?_, h8, h9, ?_, ?_, keys_nodup_erase _ _ h12⟩
    · simp only [reclaim, setProc]; omega
    · intro hle; have := h5 hle; simp only [reclaim, setProc]; omega
    · intro hf; rw [hf] at h1; rw [h1] at hm; exact absurd hm (by decide)
    · intro hf; rw [hf] at h1; rw [h1] at hm; exact absurd hm (by decide)
    · intro e he
      exact h10 e (mem_regErase _ _ _ he)
    · intro hd; exact absurd hd hnr
  · intro i pr ticket task _ _; exact ⟨h1, h2, h3, h4, h5, h6, h7, h8, h9, h10, h11, h12⟩
  · intro i pr _ _; exact ⟨h1, h2, h3, h4, h5, h6, h7, h8, h9, h10, h11, h12⟩

/-- An invariant of single moves holds along every trace. -/
theorem run_induct (P : World → Prop)
    (hP : ∀ a w w', P w → step a w = some w' → P w') :
    ∀ (acts : List Action) (w w' : World), P w → run acts w = some w' → P w' := by
  intro acts
  induction acts with
  | nil =>
    intro w w' hw h
    simp only [run, Option.some.injEq] at h
    rw [← h]; exact hw
  | cons a rest ih =>
    intro w w' hw h
    simp only [run] at h
    cases hs : step a w with
    | none => rw [hs] at h; simp at h
    | some w1 =>
      rw [hs] at h
      simp only [Option.some_bind] at h
      exact ih w1 w' (hP a w w1 hw hs) h

theorem poolInv_run {n : Int} {m : PoolMode} {c : Int} {w w' : World} {acts : List Action}
    (hinv : PoolInv n m c w) (h : run acts w = some w') : PoolInv n m c w' :=
  run_induct (PoolInv n m c) (fun _ _ _ hw hs => poolInv_step hw hs) acts w w' hinv h

/-! ## Tickets: who holds which dequeued task -/

theorem inflight_cons (p : Proc) (ps : List Proc) :
    inflight (p :: ps) = (ticketOf p).toList ++ inflight ps := by
  unfold inflight
  cases h : ticketOf p <;> simp [List.filterMap_cons, h]

theorem inflight_append_entry (ps : List Proc) (t : Int) :
    inflight (ps ++ [{ threadid := t, pc := Pc.entry, lastTime := 0, enteredAt := 0, lastDone := none }]) = inflight ps := by
  simp [inflight, List.filterMap_append, ticketOf]

/-- Replacing one worker's state exchanges its ticket and no other. -/
theorem inflight_set (ps : List Proc) (i : Nat) (pr pr' : Proc) (h : ps[i]? = some pr) :
    ((ticketOf pr').toList ++ inflight ps).Perm
      ((ticketOf pr).toList ++ inflight (ps.set i pr')) := by
  induction ps generalizing i with
  | nil => simp at h
  | cons p ps ih =>
    cases i with
    | zero =>
      simp only [List.getElem?_cons_zero, Option.some.injEq] at h
      subst h
      simp only [List.set_cons_zero, inflight_cons]
      rw [← List.append_assoc, ← List.append_assoc]
      exact List.Perm.append_right _ List.perm_append_comm
    | succ j =>
      simp only [List.getElem?_cons_succ] at h
      simp only [List.set_cons_succ, inflight_cons]
      exact (List.perm_append_comm_assoc _ _ _).trans
        (((ih j h).append_left _).trans (List.perm_append_comm_assoc _ _ _))

theorem mem_inflight (ps : List Proc) (k : Nat) (h : k ∈ inflight ps) :
    ∃ p ∈ ps, ∃ t, p.pc = Pc.running k t := by
  unfold inflight at h
  rw [List.mem_filterMap] at h
  obtain ⟨p, hp, hk⟩ := h
  refine ⟨p, hp, ?_⟩
  unfold ticketOf at hk
  split at hk
  · next k0 t hpc =>
    simp only [Option.some.injEq] at hk
    subst hk; exact ⟨t, hpc⟩
  · exact absurd hk (by simp)

theorem lt_of_getElem?_some {l : List Nat} {k t : Nat} (h : l[k]? = some t) : k < l.length := by
  by_contra hlt
  rw [List.getElem?_eq_none (by omega)] at h
  exact absurd h (by simp)

theorem getElem?_append_some {l : List Nat} {k t : Nat} (l' : List Nat) (h : l[k]? = some t) :
    (l ++ l')[k]? = some t := by
  rw [List.getElem?_append_left (lt_of_getElem?_some h)]; exact h

theorem ticketOf_eq_none {p : Proc} (h : ∀ k t, p.pc ≠ Pc.running k t) : ticketOf p = none := by
  unfold ticketOf
  split
  · next k t hpc => exact absurd hpc (h k t)
  · rfl

/-- Replacing a worker that holds no ticket by one that holds none keeps the facts. -/
theorem logInv_set_idle {w : World} (hinv : LogInv w) (p0 : ThreadPool) (d : DtorState)
    (x : Nat) (i : Nat) (pr pr' : Proc)
    (hi : w.procs[i]? = some pr) (h1 : ticketOf pr = none) (h2 : ∀ k t, pr'.pc ≠ Pc.running k t) :
    LogInv (setProc { w with pool := p0, dtor := d, exitNotified := x } i pr') := by
  obtain ⟨hn, hh, hl⟩ := hinv
  have hperm := inflight_set w.procs i pr pr' hi
  rw [h1, ticketOf_eq_none h2] at hperm
  simp only [Option.toList, List.nil_append] at hperm
  refine ⟨?_, ?_, hl⟩
  · simp only [setProc]
    exact (List.Perm.nodup_iff (List.Perm.append_left _ hperm)).mp hn
  · intro p hp k t hpc
    simp only [setProc] at hp
    rcases List.mem_or_eq_of_mem_set hp with hp | hp
    · exact hh p hp k t hpc
    · rw [hp] at hpc; exact absurd hpc (h2 k t)

theorem logInv_step {w w' : World} {a : Action}
    (hinv : LogInv w) (h : step a w = some w') : LogInv w' := by
  have hinv0 := hinv
  obtain ⟨hn, hh, hl⟩ := hinv
  have hw : ∀ (p0 : ThreadPool), LogInv { w with pool := p0 } := fun _ => ⟨hn, hh, hl⟩
  refine step_cases LogInv w a ?_ ?_ ?_ ?_ ?_ ?_ ?_ ?_ ?_ ?_ ?_ ?_ ?_ w' h
  · intro _; exact ⟨hn, hh, hl⟩
  · intro sp _ _; exact ⟨hn, hh, hl⟩
  · intro sp _ _
    obtain ⟨_, _, _, _, _, e6, e7⟩ := spawnWorker_rest (enqueueTask w sp)
    have hprocs := spawnWorker_procs (enqueueTask w sp)
    refine ⟨?_, ?_, ?_⟩
    · rw [e7]
      rcases hprocs with hp | ⟨t, hp⟩
      · rw [hp]; exact hn
      · rw [hp, inflight_append_entry]; exact hn
    · intro p hp k t hpc
      rw [e6]
      rcases hprocs with hp2 | ⟨t2, hp2⟩
      · rw [hp2] at hp; exact hh p hp k t hpc
      · rw [hp2] at hp
        simp only [enqueueTask, List.mem_append, List.mem_singleton] at hp
        rcases hp with hp | hp
        · exact hh p hp k t hpc
        · rw [hp] at hpc; exact absurd hpc (by simp)
    · intro e he
      rw [e6]; rw [e7] at he
      exact hl e he
  · intro d; exact ⟨hn, hh, hl⟩
  · intro _; exact ⟨hn, hh, hl⟩
  · intro d _ _; exact ⟨hn, hh, hl⟩
  · intro i pr hi hpc
    exact logInv_set_idle hinv0 w.pool w.dtor w.exitNotified i pr _ hi
      (by simp [ticketOf, hpc]) (by simp)
  · intro i pr hi hpc _ _
    exact logInv_set_idle hinv0 _ _ _ i pr _ hi
      (by rcases hpc with hpc | hpc <;> simp [ticketOf, hpc]) (by simp)
  · intro i pr hi hpc _ _
    exact logInv_set_idle hinv0 w.pool w.dtor w.exitNotified i pr _ hi
      (by rcases hpc with hpc | hpc <;> simp [ticketOf, hpc]) (by simp)
  · intro i pr task rest hi hpc _
    have hperm := inflight_set w.procs i pr
      { pr with pc := Pc.running w.dequeued.length task } hi
    have htk : ticketOf pr = none := by rcases hpc with hpc | hpc <;> simp [ticketOf, hpc]
    rw [htk] at hperm
    simp only [ticketOf, Option.toList, List.nil_append, List.singleton_append] at hperm
    refine ⟨?_, ?_, ?_⟩
    · simp only [takeTask, setProc]
      have hnew : (w.execLog.map Prod.fst ++ (w.dequeued.length :: inflight w.procs)).Nodup := by
        rw [List.nodup_append] at hn ⊢
        obtain ⟨hn1, hn2, hn3⟩ := hn
        refine ⟨hn1, ?_, ?_⟩
        · rw [List.nodup_cons]
          refine ⟨?_, hn2⟩
          intro hmem
          obtain ⟨p, hp, t, hpc2⟩ := mem_inflight _ _ hmem
          have := lt_of_getElem?_some (hh p hp _ t hpc2)
          omega
        · intro x hx1 hx2
          rw [List.mem_cons] at hx2
          rcases hx2 with hx2 | hx2
          · rw [List.mem_map] at hx1
            obtain ⟨e, he, hex⟩ := hx1
            have := lt_of_getElem?_some (hl e he)
            omega
          · exact hn3 hx1 hx2
      exact (List.Perm.nodup_iff (List.Perm.append_left _ hperm)).mp hnew
    · intro p hp k t hpc2
      simp only [takeTask, setProc] at hp ⊢
      rcases List.mem_or_eq_of_mem_set hp with hp | hp
      · exact getElem?_append_some _ (hh p hp k t hpc2)
      · rw [hp] at hpc2
        simp only [Pc.running.injEq] at hpc2
        rw [← hpc2.1, ← hpc2.2]
        simp
    · intro e he
      simp only [takeTask, setProc] at he ⊢
      exact getElem?_append_some _ (hl e he)
  · intro i pr _ hi hpc _ _
    exact logInv_set_idle hinv0 _ w.dtor w.exitNotified i pr _ hi (by simp [ticketOf, hpc]) (by simp)
  · intro i pr ticket task hi hpc
    have hperm := inflight_set w.procs i pr { pr with pc := Pc.completing } hi
    have htk : ticketOf pr = some ticket := by simp [ticketOf, hpc]
    rw [htk] at hperm
    simp only [ticketOf, Option.toList, List.nil_append, List.singleton_append] at hperm
    have hmem : pr ∈ w.procs := List.getElem?_mem hi
    refine ⟨?_, ?_, ?_⟩
    · simp only [setProc, List.map_append, List.map_cons, List.map_nil, List.append_assoc,
        List.singleton_append]
      exact (List.Perm.nodup_iff (List.Perm.append_left _ hperm)).mp hn
    · intro p hp k t hpc2
      simp only [setProc] at hp ⊢
      rcases List.mem_or_eq_of_mem_set hp with hp | hp
      · exact hh p hp k t hpc2
      · rw [hp] at hpc2; exact absurd hpc2 (by simp)
    · intro e he
      simp only [setProc, List.mem_append, List.mem_singleton] at he ⊢
      rcases he with he | he
      · exact hl e he
      · rw [he]; exact hh pr hmem ticket task hpc
  · intro i pr hi hpc
    exact logInv_set_idle hinv0 _ w.dtor w.exitNotified i pr _ hi (by simp [ticketOf, hpc]) (by simp)

theorem logInv_run {w w' : World} {acts : List Action}
    (hinv : LogInv w) (h : run acts w = some w') : LogInv w' :=
  run_induct LogInv (fun _ _ _ hw hs => logInv_step hw hs) acts w w' hinv h

/-! ## `start` -/

/-- A pool as constructed, after any calls of the three setters, is not started. -/
theorem fresh_of_ctor (hw c q g : Int) (m : PoolMode) (t : Nat) :
    (World.init ((((ThreadPool.ctor hw).setMode m).setThreadSizeThreadHold c).setTaskQueMaxThreadHold
      q) g t).Fresh := by
  cases m <;>
    simp [World.Fresh, World.init, ThreadPool.ctor, ThreadPool.setMode,
      ThreadPool.setThreadSizeThreadHold, ThreadPool.setTaskQueMaxThreadHold,
      ThreadPool.checkRunningState]

/-- The first loop of `start` changes the registry and the identifier counter only;
under fresh identifiers it adds one entry per iteration. -/
theorem createThreads_spec (k : Nat) :
    ∀ w : World, (∀ e ∈ w.pool.threads_, e.1 < w.generateId_) →
      ((w.pool.threads_.map Prod.fst).Nodup →
        ((createThreads k w).pool.threads_.map Prod.fst).Nodup) ∧
      createThreads k w =
          { w with generateId_ := w.generateId_ + k
                   pool := { w.pool with threads_ := (createThreads k w).pool.threads_ } } ∧
        (createThreads k w).pool.threads_.length = w.pool.threads_.length + k ∧
        (∀ e ∈ (createThreads k w).pool.threads_, e.1 < w.generateId_ + k) ∧
        (∀ j : Int, w.generateId_ ≤ j → j < w.generateId_ + k →
          (createThreads k w).pool.threads_.lookup j = some (some { threadId_ := j })) ∧
        (∀ j : Int, j < w.generateId_ →
          (createThreads k w).pool.threads_.lookup j = w.pool.threads_.lookup j) := by
  induction k with
  | zero =>
    intro w hf
    refine ⟨by simp [createThreads], by simp [createThreads], by simp [createThreads],
      by simpa [createThreads] using hf, ?_, by simp [createThreads]⟩
    intro j h1 h2
    simp only [Nat.cast_zero, add_zero] at h2
    omega
  | succ k ih =>
    intro w hf
    have hreg := regEmplace_fresh w.pool.threads_ w.generateId_ { threadId_ := w.generateId_ } hf
    have hnone := lookup_none_of_keys_lt _ _ hf
    have hstep : createThreads (k + 1) w = createThreads k
        { w with generateId_ := w.generateId_ + 1
                 pool := { w.pool with threads_ :=
                   w.pool.threads_ ++ [(w.generateId_, some { threadId_ := w.generateId_ })] } } := by
      simp only [createThreads, hreg]
    generalize hw2 : ({ w with generateId_ := w.generateId_ + 1
                               pool := { w.pool with threads_ :=
                                 w.pool.threads_ ++ [(w.generateId_, some { threadId_ := w.generateId_ })] } }
        : World) = w2 at hstep
    have hg2 : w2.generateId_ = w.generateId_ + 1 := by rw [← hw2]
    have ht2 : w2.pool.threads_ =
        w.pool.threads_ ++ [(w.generateId_, some { threadId_ := w.generateId_ })] := by rw [← hw2]
    have hf2 : ∀ e ∈ w2.pool.threads_, e.1 < w2.generateId_ := by
      intro e he
      rw [ht2] at he; rw [hg2]
      simp only [List.mem_append, List.mem_singleton] at he
      rcases he with he | he
      · have := hf e he; omega
      · rw [he]; simp
    obtain ⟨e0, e1, e2, e3, e4, e5⟩ := ih w2 hf2
    rw [hstep]
    refine ⟨?_, ?_, ?_, ?_, ?_, ?_⟩
    · intro hnd
      apply e0
      rw [ht2]
      exact keys_nodup_append _ _ _ hnd hf
    · rw [e1, ← hw2]
      simp only [Nat.cast_add, Nat.cast_one, World.mk.injEq, ThreadPool.mk.injEq, and_true,
        true_and]
      ring
    · rw [e2, ht2]; simp only [List.length_append, List.length_singleton]; ring
    · intro e he
      have := e3 e he
      rw [hg2] at this
      simp only [Nat.cast_add, Nat.cast_one] at this ⊢
      omega
    · intro j h1 h2
      simp only [Nat.cast_add, Nat.cast_one] at h2
      by_cases hj : j = w.generateId_
      · rw [e5 j (by rw [hg2]; omega), ht2, hj]
        exact lookup_append_self _ _ _ hnone
      · exact e4 j (by rw [hg2]; omega) (by rw [hg2]; omega)
    · intro j hj
      rw [e5 j (by rw [hg2]; omega), ht2]
      exact lookup_append_ne _ _ _ _ (by omega)

/-- When the second loop of `start` runs to its end it has added `k` execution
threads, all at the entry of `threadFunc`, and `k` to the idle count, and nothing
else has changed. -/
theorem startThreads_ok (k : Nat) :
    ∀ (i : Int) (w w' : World), startThreads i k w = Except.ok w' →
      w' = { w with procs := w'.procs
                    pool := { w.pool with idleThreadSize_ := w.pool.idleThreadSize_ + k } } ∧
      (∀ p ∈ w'.procs, p ∈ w.procs ∨ (p.pc = Pc.entry ∧ p.lastDone = none)) ∧
      w'.procs.length = w.procs.length + k := by
  induction k with
  | zero =>
    intro i w w' h
    simp only [startThreads, Except.ok.injEq] at h
    subst h
    exact ⟨by simp, fun p hp => Or.inl hp, by simp⟩
  | succ k ih =>
    intro i w w' h
    simp only [startThreads] at h
    split at h
    · exact absurd h (by simp)
    · next th hth =>
      rw [(regIndex_of_some _ _ _ hth).1] at h
      obtain ⟨e1, e2, e3⟩ := ih _ _ _ h
      refine ⟨?_, ?_, ?_⟩
      · rw [e1]
        simp only [spawnProc, Nat.cast_add, Nat.cast_one, World.mk.injEq, ThreadPool.mk.injEq,
          and_true, true_and]
        ring
      · intro p hp
        rcases e2 p hp with hp2 | hp2
        · simp only [spawnProc, List.mem_append, List.mem_singleton] at hp2
          rcases hp2 with hp2 | hp2
          · exact Or.inl hp2
          · rw [hp2]; exact Or.inr ⟨rfl, rfl⟩
        · exact Or.inr hp2
      · rw [e3]; simp only [spawnProc, List.length_append, List.length_singleton]; ring

/-- The second loop of `start` runs to its end when every index it uses is a key of
the registry. -/
theorem startThreads_total (k : Nat) :
    ∀ (i : Int) (w : World),
      (∀ j : Int, i ≤ j → j < i + k → ∃ th, w.pool.threads_.lookup j = some (some th)) →
      ∃ w', startThreads i k w = Except.ok w' := by
  induction k with
  | zero => intro i w _; exact ⟨w, rfl⟩
  | succ k ih =>
    intro i w h
    obtain ⟨th, hth⟩ := h i (le_refl _) (by push_cast; omega)
    simp only [startThreads, regIndex_of_lookup _ _ _ hth]
    apply ih
    intro j h1 h2
    exact h j (by omega) (by push_cast; omega)

/-- With no worker constructed before (`generateId_` is 0), `start(n)` on a pool not
started before returns. -/
theorem start_returns {w : World} (n : Int) (hf : w.Fresh) (hg : w.generateId_ = 0) :
    ∃ w', start w n = Except.ok w' := by
  unfold start
  simp only []
  apply startThreads_total
  intro j h1 h2
  have hfresh : ∀ e ∈ ({ w with pool := { w.pool with isPoolRunning_ := true,
                                                       initThreadSize_ := n,
                                                       curThreadSize_ := n } } : World).pool.threads_,
      e.1 < ({ w with pool := { w.pool with isPoolRunning_ := true,
                                            initThreadSize_ := n,
                                            curThreadSize_ := n } } : World).generateId_ := by
    simp [hf.2.1]
  obtain ⟨_, _, _, _, c4, _⟩ := createThreads_spec n.toNat _ hfresh
  exact ⟨_, c4 j (by simp only [hg]; omega) (by simp only [hg]; omega)⟩

theorem inflight_of_entry (ps : List Proc) (h : ∀ p ∈ ps, p.pc = Pc.entry) : inflight ps = [] := by
  induction ps with
  | nil => rfl
  | cons p ps ih =>
    rw [inflight_cons, ih (fun q hq => h q (List.mem_cons_of_mem _ hq))]
    have := h p (List.mem_cons_self _ _)
    simp [ticketOf, this]

/-- What `start(n)` leaves behind when it returns, on a pool not started before. -/
theorem start_inv {w w' : World} {n : Int} (hf : w.Fresh) (h : start w n = Except.ok w') :
    PoolInv n w.pool.poolMode_ w.pool.threadSizeThreadhold_ w' ∧ LogInv w' ∧
      w'.pool.isPoolRunning_ = true ∧ w'.pool.idleThreadSize_ = n.toNat ∧
      w'.pool.threads_.length = n.toNat ∧ w'.procs.length = n.toNat ∧
      w'.generateId_ = w.generateId_ + n.toNat ∧ w'.dtor = DtorState.notCalled := by
  obtain ⟨f1, f2, f3, f4, f5, f6, f7, f8, f9, f10, f11⟩ := hf
  unfold start at h
  simp only [] at h
  generalize hw1 : ({ w with pool := { w.pool with isPoolRunning_ := true,
                                                   initThreadSize_ := n,
                                                   curThreadSize_ := n } } : World) = w1 at h
  have hfresh1 : ∀ e ∈ w1.pool.threads_, e.1 < w1.generateId_ := by
    rw [← hw1]; simp [f2]
  obtain ⟨c0, c1, c2, c3, _, _⟩ := createThreads_spec n.toNat w1 hfresh1
  obtain ⟨s1, s2, s3⟩ := startThreads_ok _ _ _ _ h
  generalize createThreads n.toNat w1 = w2 at *
  have hp : w'.pool = { w2.pool with idleThreadSize_ := w2.pool.idleThreadSize_ + n.toNat } := by
    rw [s1]
  have hp2 : w2.pool = { w1.pool with threads_ := w2.pool.threads_ } := by
    rw [c1]
  have hg : w'.generateId_ = w1.generateId_ + n.toNat := by rw [s1, c1]
  have hprocs : w2.procs = [] := by rw [c1, ← hw1]; exact f6
  have hentry : ∀ p ∈ w'.procs, p.pc = Pc.entry := by
    intro p hp
    rcases s2 p hp with h1 | h1
    · rw [hprocs] at h1; simp at h1
    · exact h1.1
  have hrest : w'.dtor = w.dtor ∧ w'.accepted = w.accepted ∧ w'.dequeued = w.dequeued ∧
      w'.execLog = w.execLog := by
    rw [s1, c1, ← hw1]; simp
  obtain ⟨r1, r2, r3, r4⟩ := hrest
  have hlen : w2.pool.threads_.length = n.toNat := by
    rw [c2, ← hw1]; simp [f2]
  refine ⟨⟨?_, ?_, ?_, ?_, ?_, ?_, ?_, ?_, ?_, ?_, ?_, ?_⟩, ⟨?_, ?_, ?_⟩, ?_, ?_, ?_, ?_, ?_, ?_⟩
  · rw [hp, hp2, ← hw1]
  · rw [hp, hp2, ← hw1]
  · rw [hp, hp2, ← hw1]
  · rw [hp, hp2, ← hw1]
  · intro hle; rw [hp, hp2, ← hw1]; exact hle
  · intro _; rw [hp, hp2, ← hw1]
  · intro _ _; rw [hp]; exact hlen
  · rw [hp, hp2, ← hw1]; simp [f3, f4]
  · rw [r3, r2, hp, hp2, ← hw1]; simp [f3, f9, f10]
  · intro e he
    rw [hp] at he
    rw [hg]
    exact c3 e he
  · intro hd; rw [r1, f7] at hd; exact absurd hd (by simp)
  · rw [hp]
    exact c0 (by rw [← hw1]; simp [f2])
  · rw [r4, f11, inflight_of_entry _ hentry]; simp
  · intro p hp k t hpc
    rw [hentry p hp] at hpc; exact absurd hpc (by simp)
  · intro e he; rw [r4, f11] at he; simp at he
  · rw [hp, hp2, ← hw1]
  · rw [hp, hp2, ← hw1]; simp [f5]
  · rw [hp]; exact hlen
  · rw [s3, hprocs]; simp
  · rw [hg, ← hw1]
  · rw [r1, f7]

/-! ## `lastTime` and the last finished task -/

theorem timeOk_set {t : Nat} {ps : List Proc} (h : ∀ p ∈ ps, TimeOk t p) (i : Nat) (pr' : Proc)
    (h' : TimeOk t pr') : ∀ p ∈ ps.set i pr', TimeOk t p := by
  intro p hp
  rcases List.mem_or_eq_of_mem_set hp with hp | hp
  · exact h p hp
  · rw [hp]; exact h'

/-- A move that changes only where the thread stands keeps `TimeOk`. -/
theorem timeOk_moved {t : Nat} {pr : Proc} (h : TimeOk t pr) (hpc : pr.pc ≠ Pc.entry)
    (pc' : Pc) (hpc' : pc' ≠ Pc.entry) : TimeOk t { pr with pc := pc' } :=
  ⟨fun he => absurd he hpc', fun _ => h.2 hpc⟩

theorem timeInv_step {w w' : World} {a : Action}
    (hinv : TimeInv w) (h : step a w = some w') : TimeInv w' := by
  have hne : ∀ pr : Proc, (pr.pc = Pc.acquire ∨ pr.pc = Pc.waiting) → pr.pc ≠ Pc.entry := by
    intro pr hpc he
    rcases hpc with hpc | hpc <;> rw [hpc] at he <;> exact absurd he (by simp)
  refine step_cases TimeInv w a ?_ ?_ ?_ ?_ ?_ ?_ ?_ ?_ ?_ ?_ ?_ ?_ ?_ w' h
  · intro _; exact hinv
  · intro sp _ _; exact hinv
  · intro sp _ _
    have hnow : (spawnWorker (enqueueTask w sp)).now = w.now := (spawnWorker_rest _).2.1
    intro p hp
    rw [hnow]
    rcases spawnWorker_procs (enqueueTask w sp) with hps | ⟨t, hps⟩
    · rw [hps] at hp; exact hinv p hp
    · rw [hps] at hp
      simp only [enqueueTask, List.mem_append, List.mem_singleton] at hp
      rcases hp with hp | hp
      · exact hinv p hp
      · rw [hp]; exact ⟨fun _ => rfl, fun hpc => absurd rfl hpc⟩
  · intro d p hp
    have := hinv p hp
    exact ⟨this.1, fun hpc => ⟨(this.2 hpc).1, Nat.le_trans (this.2 hpc).2 (Nat.le_add_right _ _)⟩⟩
  · intro _; exact hinv
  · intro d _ _; exact hinv
  · intro i pr hi hpc
    have hold := hinv pr (List.getElem?_mem hi)
    refine timeOk_set hinv i _ ⟨fun he => absurd he (by simp), fun _ => ⟨?_, le_refl _⟩⟩
    simp only [hold.1 hpc, Option.getD_none]
  · intro i pr hi hpc _ _
    exact timeOk_set hinv i _
      (timeOk_moved (hinv pr (List.getElem?_mem hi)) (hne pr hpc) _ (by simp))
  · intro i pr hi hpc _ _
    exact timeOk_set hinv i _
      (timeOk_moved (hinv pr (List.getElem?_mem hi)) (hne pr hpc) _ (by simp))
  · intro i pr task rest hi hpc _
    exact timeOk_set hinv i _
      (timeOk_moved (hinv pr (List.getElem?_mem hi)) (hne pr hpc) _ (by simp))
  · intro i pr _ hi hpc _ _
    exact timeOk_set hinv i _
      (timeOk_moved (hinv pr (List.getElem?_mem hi)) (by rw [hpc]; simp) _ (by simp))
  · intro i pr ticket task hi hpc
    exact timeOk_set hinv i _
      (timeOk_moved (hinv pr (List.getElem?_mem hi)) (by rw [hpc]; simp) _ (by simp))
  · intro i pr hi hpc
    exact timeOk_set hinv i _
      ⟨fun he => absurd he (by simp), fun _ => ⟨by simp, le_refl _⟩⟩

theorem timeInv_run {w w' : World} {acts : List Action}
    (hinv : TimeInv w) (h : run acts w = some w') : TimeInv w' :=
  run_induct TimeInv (fun _ _ _ hw hs => timeInv_step hw hs) acts w w' hinv h

/-- After `start` no execution thread has entered `threadFunc` or finished a task. -/
theorem start_timeInv {w w' : World} {n : Int} (hf : w.Fresh) (h : start w n = Except.ok w') :
    TimeInv w' := by
  unfold start at h
  simp only [] at h
  obtain ⟨_, s2, _⟩ := startThreads_ok _ _ _ _ h
  have hfresh : ∀ e ∈ ({ w with pool := { w.pool with isPoolRunning_ := true,
                                                       initThreadSize_ := n,
                                                       curThreadSize_ := n } } : World).pool.threads_,
      e.1 < ({ w with pool := { w.pool with isPoolRunning_ := true,
                                            initThreadSize_ := n,
                                            curThreadSize_ := n } } : World).generateId_ := by
    simp [hf.2.1]
  obtain ⟨_, c1, _⟩ := createThreads_spec n.toNat _ hfresh
  intro p hp
  rcases s2 p hp with h1 | h1
  · rw [c1] at h1
    simp only [hf.2.2.2.2.2.1] at h1
    simp at h1
  · exact ⟨fun _ => h1.2, fun hpc => absurd h1.1 hpc⟩

/-! ## Submission (claims C1, C2) -/

theorem toSizeT_le (x : Int) (h : 0 ≤ x) : (toSizeT x : Int) ≤ x := by
  unfold toSizeT
  omega

/-- For a threshold in the range of `int`, a queue shorter than the threshold passes
the test of `submitTask`. -/
theorem below_threshold_passes (w : World)
    (h : (w.pool.taskQue_.length : Int) < w.pool.taskQueMaxThreadHold_)
    (hmax : w.pool.taskQueMaxThreadHold_ ≤ TASK_MAX_THREADHOLD) :
    w.pool.taskQue_.length < toSizeT w.pool.taskQueMaxThreadHold_ := by
  unfold toSizeT
  unfold TASK_MAX_THREADHOLD at hmax
  omega

/-- What `submitTask` does when its own test holds (the threshold converted to
`size_t`): the task goes to the back of the queue, `taskQue_.size()` and `taskSize_`
grow by exactly one, the Result is valid and wraps the task, and a threshold that is
not negative still bounds the queue length. -/
theorem submitTask_accepts (w : World) (sp : Nat)
    (h : w.pool.taskQue_.length < toSizeT w.pool.taskQueMaxThreadHold_) :
    (submitTask w sp).1.pool.taskQue_ = w.pool.taskQue_ ++ [sp] ∧
    (submitTask w sp).1.pool.taskQue_.length = w.pool.taskQue_.length + 1 ∧
    (submitTask w sp).1.pool.taskSize_ = w.pool.taskSize_ + 1 ∧
    (submitTask w sp).1.accepted = w.accepted ++ [sp] ∧
    (submitTask w sp).2 = Result.ctor sp true ∧
    (submitTask w sp).2.isValid_ = true ∧ (submitTask w sp).2.task_ = sp ∧
    (submitTask w sp).1.pool.taskQueMaxThreadHold_ = w.pool.taskQueMaxThreadHold_ ∧
    (0 ≤ w.pool.taskQueMaxThreadHold_ →
      ((submitTask w sp).1.pool.taskQue_.length : Int) ≤
        (submitTask w sp).1.pool.taskQueMaxThreadHold_) := by
  have hpool : (submitTask w sp).1.pool.taskQue_ = w.pool.taskQue_ ++ [sp] ∧
      (submitTask w sp).1.pool.taskSize_ = w.pool.taskSize_ + 1 ∧
      (submitTask w sp).1.accepted = w.accepted ++ [sp] ∧
      (submitTask w sp).1.pool.taskQueMaxThreadHold_ = w.pool.taskQueMaxThreadHold_ := by
    unfold submitTask
    simp only [h, if_true]
    split
    · rw [spawnWorker_pool]
      exact ⟨rfl, rfl, (spawnWorker_rest _).2.2.2.2.1, rfl⟩
    · exact ⟨rfl, rfl, rfl, rfl⟩
  have hres : (submitTask w sp).2 = Result.ctor sp true := by
    unfold submitTask
    simp only [h, if_true]
  obtain ⟨p1, p2, p3, p4⟩ := hpool
  refine ⟨p1, ?_, p2, p3, hres, ?_, ?_, p4, ?_⟩
  · rw [p1]; simp
  · rw [hres]; rfl
  · rw [hres]; rfl
  · intro h0
    have := toSizeT_le _ h0
    rw [p1, p4]
    simp only [List.length_append, List.length_singleton, Nat.cast_add, Nat.cast_one]
    omega

/-- C1: for every pool state (running or not), every task and every capacity value of
type `int` (at most `INT32_MAX`, which is `TASK_MAX_THREADHOLD`), if the queue length
is below the capacity threshold then `submitTask` appends the task at the back of the
queue, increases the queue length (both `taskQue_.size()` and `taskSize_`) by exactly
one and returns a valid Result wrapping that task; and in the resulting state the
queue length is at most the capacity threshold, which `submitTask` leaves as it was. -/
theorem C1_submit_below_threshold (w : World) (sp : Nat)
    (h : (w.pool.taskQue_.length : Int) < w.pool.taskQueMaxThreadHold_)
    (hint : w.pool.taskQueMaxThreadHold_ ≤ TASK_MAX_THREADHOLD) :
    (submitTask w sp).1.pool.taskQue_ = w.pool.taskQue_ ++ [sp] ∧
    (submitTask w sp).1.pool.taskQue_.length = w.pool.taskQue_.length + 1 ∧
    (submitTask w sp).1.pool.taskSize_ = w.pool.taskSize_ + 1 ∧
    (submitTask w sp).1.accepted = w.accepted ++ [sp] ∧
    (submitTask w sp).2 = Result.ctor sp true ∧
    (submitTask w sp).2.isValid_ = true ∧ (submitTask w sp).2.task_ = sp ∧
    (submitTask w sp).1.pool.taskQueMaxThreadHold_ = w.pool.taskQueMaxThreadHold_ ∧
    ((submitTask w sp).1.pool.taskQue_.length : Int) ≤
      (submitTask w sp).1.pool.taskQueMaxThreadHold_ := by
  obtain ⟨a1, a2, a3, a4, a5, a6, a7, a8, a9⟩ :=
    submitTask_accepts w sp (below_threshold_passes w h hint)
  exact ⟨a1, a2, a3, a4, a5, a6, a7, a8, a9 (by omega)⟩

/-- C1, witness: a running pool of capacity 2 with one task queued; the second
submission is accepted and fills the queue to its capacity. -/
theorem C1_submit_below_threshold_witness :
    demoHalf.pool.isPoolRunning_ = true ∧
      (demoHalf.pool.taskQue_.length : Int) < demoHalf.pool.taskQueMaxThreadHold_ ∧
      (submitTask demoHalf 6).1.pool.taskQue_ = [5, 6] ∧
      (submitTask demoHalf 6).2.isValid_ = true ∧
      ((submitTask demoHalf 6).1.pool.taskQue_.length : Int) ≤
        (submitTask demoHalf 6).1.pool.taskQueMaxThreadHold_ :=
  ⟨by decide, by decide,
   (C1_submit_below_threshold demoHalf 6 (by decide) (by decide)).1,
   (C1_submit_below_threshold demoHalf 6 (by decide) (by decide)).2.2.2.2.2.1,
   (C1_submit_below_threshold demoHalf 6 (by decide) (by decide)).2.2.2.2.2.2.2.2⟩

/-- A negative threshold: `setTaskQueMaxThreadHold(-1)` is stored as it is, and
since `submitTask` converts the threshold to `size_t` before comparing, its test holds
on the empty queue and the task is accepted. -/
theorem submitTask_negative_capacity :
    demoNegative.pool.taskQueMaxThreadHold_ = -1 ∧
    ¬ ((demoNegative.pool.taskQue_.length : Int) < demoNegative.pool.taskQueMaxThreadHold_) ∧
    demoNegative.pool.taskQue_.length < toSizeT demoNegative.pool.taskQueMaxThreadHold_ ∧
    (submitTask demoNegative 7).2.isValid_ = true ∧
    (submitTask demoNegative 7).1.pool.taskQue_ = [7] := by
  decide

/-- C2: for every pool state in which the queue is at its capacity threshold when the
bounded wait ends, `submitTask` returns a Result marked invalid and changes nothing
(queue, queue length, registry, idle and current counts, execution threads); and
`get()` on an invalid Result returns the value built from the empty string at once,
whatever the state of its signal, and leaves the signal as it was. -/
theorem C2_submit_rejects (w : World) (sp : Nat)
    (h : (w.pool.taskQue_.length : Int) = w.pool.taskQueMaxThreadHold_) :
    (submitTask w sp).2 = Result.ctor sp false ∧
    (submitTask w sp).2.isValid_ = false ∧
    (submitTask w sp).1 = w ∧
    (submitTask w sp).2.get = some (Any.ofCStr "", (submitTask w sp).2) ∧
    (∀ r : Result, r.isValid_ = false → r.get = some (Any.ofCStr "", r)) := by
  have hc : ¬ w.pool.taskQue_.length < toSizeT w.pool.taskQueMaxThreadHold_ := by
    have := toSizeT_le w.pool.taskQueMaxThreadHold_ (by omega)
    omega
  have hget : ∀ r : Result, r.isValid_ = false → r.get = some (Any.ofCStr "", r) := by
    intro r hr
    unfold Result.get
    simp [hr]
  have hres : (submitTask w sp).2 = Result.ctor sp false := by
    unfold submitTask; simp only [hc, if_false]
  refine ⟨hres, by rw [hres]; rfl, ?_, ?_, hget⟩
  · unfold submitTask; simp only [hc, if_false]
  · exact hget _ (by rw [hres]; rfl)

/-- C2, witness: capacity 2 with two tasks queued; the third submission is refused. -/
theorem C2_submit_rejects_witness :
    (demoFull.pool.taskQue_.length : Int) = demoFull.pool.taskQueMaxThreadHold_ ∧
      (submitTask demoFull 9).1 = demoFull ∧ (submitTask demoFull 9).2.isValid_ = false :=
  ⟨by decide,
   (C2_submit_rejects demoFull 9 (by decide)).2.2.1,
   (C2_submit_rejects demoFull 9 (by decide)).2.1⟩

/-! ## Result and Task (claims C7, C10) -/

/-- C7: for every valid Result on which no signal is pending (as after construction,
before `setVal`) and every value `v`: `get()` does not return (the caller is blocked
on the signal); `setVal(v)` stores `v` and posts exactly one signal; the first `get()`
after `setVal(v)` returns exactly `v`, and consumes the signal, so a further `get()`
blocks again. A Result is constructed with no signal pending. -/
theorem C7_get_waits_for_setVal (r : Result) (v : Any)
    (hv : r.isValid_ = true) (h0 : r.sem_.resLimit_ = 0) :
    r.get = none ∧
    (r.setVal v).any_ = v ∧
    (r.setVal v).sem_.resLimit_ = r.sem_.resLimit_ + 1 ∧
    (r.setVal v).isValid_ = true ∧
    (r.setVal v).get = some (v, { r with any_ := Any.unset }) ∧
    ({ r with any_ := Any.unset } : Result).get = none ∧
    (∀ task, (Result.ctor task true).sem_.resLimit_ = 0 ∧ (Result.ctor task true).get = none) := by
  obtain ⟨a, ⟨s⟩, t, b⟩ := r
  simp only at hv h0
  subst hv h0
  refine ⟨rfl, rfl, rfl, rfl, rfl, rfl, fun _ => ⟨rfl, rfl⟩⟩

/-- C7, witness: the Result of an accepted submission of task 7, value 42. -/
theorem C7_get_waits_for_setVal_witness :
    (Result.ctor 7 true).get = none ∧
      ((Result.ctor 7 true).setVal (Any.ofULong 42)).get =
        some (Any.ofULong 42, { Result.ctor 7 true with any_ := Any.unset }) :=
  ⟨(C7_get_waits_for_setVal (Result.ctor 7 true) (Any.ofULong 42) rfl rfl).1,
   (C7_get_waits_for_setVal (Result.ctor 7 true) (Any.ofULong 42) rfl rfl).2.2.2.2.1⟩

/-- C10, as the code has it: for every task, if a Result is attached, `exec` invokes
the compute step exactly once and forwards its return value to that Result by exactly
one `setVal`; if no Result is attached, `exec` does not invoke the compute step and
forwards nothing (the task is unchanged). -/
theorem C10_exec (t : Task) :
    (∀ r, t.result_ = some r →
      t.exec.runCalls = t.runCalls + 1 ∧ t.exec.result_ = some (r.setVal t.runValue) ∧
        t.exec.runValue = t.runValue) ∧
    (t.result_ = none → t.exec = t ∧ t.exec.runCalls = t.runCalls) := by
  constructor
  · intro r hr
    unfold Task.exec
    rw [hr]
    exact ⟨rfl, rfl, rfl⟩
  · intro hr
    unfold Task.exec
    rw [hr]
    exact ⟨rfl, rfl⟩

/-- C10, counterexample: a task as constructed has no Result attached; `exec` on it
does not invoke the compute step (zero invocations, not one). -/
theorem C10_exec_without_result :
    (Task.ctor (Any.ofULong 5)).result_ = none ∧
    (Task.ctor (Any.ofULong 5)).exec.runCalls = 0 ∧
    ¬ ((Task.ctor (Any.ofULong 5)).exec.runCalls = (Task.ctor (Any.ofULong 5)).runCalls + 1) := by
  decide

/-! ## Worker counts (claims C3, C4, C5) -/

/-- C3, as the code has it: in every state reached from `start(n)` by submissions and
worker steps, an accepted submission spawns exactly one new worker (one new registry
entry under a fresh identifier, one new execution thread, idle and current counts up
by one) if the mode is Cached, the queue length after the enqueue is greater than the
idle count and the current count is below the ceiling, and otherwise leaves the
registry, the execution threads and both counts unchanged; and when `n` is at most the
ceiling, the current worker count is at most the ceiling. -/
theorem C3_cached_growth (w0 w1 w : World) (n : Int) (acts : List Action)
    (hf : w0.Fresh) (hs : start w0 n = Except.ok w1) (hr : run acts w1 = some w) :
    (∀ sp, w.pool.taskQue_.length < toSizeT w.pool.taskQueMaxThreadHold_ →
      ((w.pool.poolMode_ = PoolMode.MODE_CACHED ∧
          (w.pool.taskQue_.length : Int) + 1 > w.pool.idleThreadSize_ ∧
          w.pool.curThreadSize_ < w.pool.threadSizeThreadhold_) →
        w.pool.threads_.lookup w.generateId_ = none ∧
        (submitTask w sp).1.pool.threads_ =
          w.pool.threads_ ++ [(w.generateId_, some { threadId_ := w.generateId_ })] ∧
        (submitTask w sp).1.pool.threads_.length = w.pool.threads_.length + 1 ∧
        (submitTask w sp).1.procs =
          w.procs ++ [{ threadid := w.generateId_, pc := Pc.entry, lastTime := 0, enteredAt := 0, lastDone := none }] ∧
        (submitTask w sp).1.pool.idleThreadSize_ = w.pool.idleThreadSize_ + 1 ∧
        (submitTask w sp).1.pool.curThreadSize_ = w.pool.curThreadSize_ + 1) ∧
      (¬ (w.pool.poolMode_ = PoolMode.MODE_CACHED ∧
          (w.pool.taskQue_.length : Int) + 1 > w.pool.idleThreadSize_ ∧
          w.pool.curThreadSize_ < w.pool.threadSizeThreadhold_) →
        (submitTask w sp).1.pool.threads_ = w.pool.threads_ ∧
        (submitTask w sp).1.procs = w.procs ∧
        (submitTask w sp).1.pool.idleThreadSize_ = w.pool.idleThreadSize_ ∧
        (submitTask w sp).1.pool.curThreadSize_ = w.pool.curThreadSize_)) ∧
    (w.pool.poolMode_ = PoolMode.MODE_CACHED → n ≤ w.pool.threadSizeThreadhold_ →
      w.pool.curThreadSize_ ≤ w.pool.threadSizeThreadhold_) := by
  have hinv := poolInv_run (start_inv hf hs).1 hr
  constructor
  · intro sp hacc
    have hiff : growCond (enqueueTask w sp).pool = true ↔
        (w.pool.poolMode_ = PoolMode.MODE_CACHED ∧
          (w.pool.taskQue_.length : Int) + 1 > w.pool.idleThreadSize_ ∧
          w.pool.curThreadSize_ < w.pool.threadSizeThreadhold_) := by
      rw [growCond_iff]
      simp only [enqueueTask, hinv.size_eq]
    have hfresh : ∀ e ∈ (enqueueTask w sp).pool.threads_, e.1 < (enqueueTask w sp).generateId_ :=
      hinv.fresh
    constructor
    · intro hc
      have hg := hiff.mpr hc
      have hsub : (submitTask w sp).1 = spawnWorker (enqueueTask w sp) := by
        unfold submitTask; simp only [hacc, if_true, hg]
      rw [hsub, spawnWorker_fresh _ hfresh]
      refine ⟨lookup_none_of_keys_lt _ _ hinv.fresh, rfl, ?_, rfl, rfl, rfl⟩
      simp [enqueueTask]
    · intro hc
      have hg : growCond (enqueueTask w sp).pool = false := by
        cases hgc : growCond (enqueueTask w sp).pool with
        | false => rfl
        | true => exact absurd (hiff.mp hgc) hc
      have hsub : (submitTask w sp).1 = enqueueTask w sp := by
        unfold submitTask; simp only [hacc, if_true, hg, Bool.false_eq_true, if_false]
      rw [hsub]
      exact ⟨rfl, rfl, rfl, rfl⟩
  · intro _ hle
    have h1 := hinv.ceil_le
    rw [← hinv.ceil_eq] at h1
    exact h1 hle

/-- C3, witness: the scenario of `main.cpp`: Cached mode, `start(2)`, three
submissions; the third finds the queue longer than the idle count and spawns. -/
theorem C3_cached_growth_witness :
    (afterRun [Action.submit 1, Action.submit 2] (started demoCached 2)).pool.curThreadSize_ ≤
        (afterRun [Action.submit 1, Action.submit 2] (started demoCached 2)).pool.threadSizeThreadhold_ ∧
      (submitTask (afterRun [Action.submit 1, Action.submit 2] (started demoCached 2)) 3).1.pool.curThreadSize_
        = 3 :=
  ⟨(C3_cached_growth demoCached (started demoCached 2)
      (afterRun [Action.submit 1, Action.submit 2] (started demoCached 2)) 2
      [Action.submit 1, Action.submit 2] (by decide) rfl rfl).2
      (by decide) (by decide),
   ((C3_cached_growth demoCached (started demoCached 2)
      (afterRun [Action.submit 1, Action.submit 2] (started demoCached 2)) 2
      [Action.submit 1, Action.submit 2] (by decide) rfl rfl).1 3
      (by decide)).1 (by decide) |>.2.2.2.2.2⟩

/-- C3, counterexample: Cached mode with the default ceiling 10; `start(11)` returns
with a current worker count of 11, above the ceiling, before any submission. -/
theorem C3_start_above_ceiling :
    start demoCached 11 = Except.ok (started demoCached 11) ∧
    run [] (started demoCached 11) = some (started demoCached 11) ∧
    (started demoCached 11).pool.poolMode_ = PoolMode.MODE_CACHED ∧
    (started demoCached 11).pool.threadSizeThreadhold_ = 10 ∧
    (started demoCached 11).pool.curThreadSize_ = 11 ∧
    ¬ ((started demoCached 11).pool.curThreadSize_ ≤
        (started demoCached 11).pool.threadSizeThreadhold_) :=
  ⟨rfl, rfl, by decide, by decide, by decide, by decide⟩

/-- C4: in Fixed mode, for every `K` and every state reached after `start(K)` by any
trace of submissions (accepted or refused), worker steps, clock ticks and destructor
steps, while the pool is running the current worker count equals `K` and the registry
holds exactly `K` workers (`K` entries under distinct identifiers), whatever the queue
holds. -/
theorem C4_fixed_count (w0 w1 w : World) (K : Nat) (acts : List Action)
    (hf : w0.Fresh) (hm : w0.pool.poolMode_ = PoolMode.MODE_FIXED)
    (hs : start w0 (K : Int) = Except.ok w1) (hr : run acts w1 = some w)
    (hrun : w.pool.isPoolRunning_ = true) :
    w.pool.curThreadSize_ = (K : Int) ∧ w.pool.threads_.length = K ∧
      (w.pool.threads_.map Prod.fst).Nodup ∧
      w.pool.poolMode_ = PoolMode.MODE_FIXED := by
  have hinv := poolInv_run (start_inv hf hs).1 hr
  refine ⟨hinv.fixed_cur hm, ?_, hinv.keys, by rw [hinv.mode_eq, hm]⟩
  have := hinv.fixed_reg hm hrun
  simpa using this

/-- C4, witness: the trace `demoFixedTrace` after `start(2)`. -/
theorem C4_fixed_count_witness :
    (afterRun demoFixedTrace (started demoFixed 2)).pool.curThreadSize_ = 2 ∧
      (afterRun demoFixedTrace (started demoFixed 2)).pool.threads_.length = 2 ∧
      ((afterRun demoFixedTrace (started demoFixed 2)).pool.threads_.map Prod.fst).Nodup ∧
      (afterRun demoFixedTrace (started demoFixed 2)).pool.poolMode_ = PoolMode.MODE_FIXED :=
  C4_fixed_count demoFixed (started demoFixed 2) (afterRun demoFixedTrace (started demoFixed 2)) 2
    demoFixedTrace (by decide) rfl rfl rfl rfl

/-- C5, as the code has it: in every state reached after `start(n)`, the recorded
initial count is `n` and the current worker count is not below it; and a move lowers
the current count only when it is the timed-out return of a worker's idle wait in
Cached mode, with at least 10 seconds since that worker last finished a task, or
since it entered `threadFunc` when it has finished none, and with the current count
above the initial count; that move erases this worker's registry entry and no other
and lowers the current and the idle count by one each. -/
theorem C5_idle_reclaim (w0 w1 w : World) (n : Int) (acts : List Action)
    (hf : w0.Fresh) (hs : start w0 n = Except.ok w1) (hr : run acts w1 = some w) :
    w.pool.initThreadSize_ = n ∧ n ≤ w.pool.curThreadSize_ ∧
    ∀ a w', step a w = some w' →
      w.pool.curThreadSize_ ≤ w'.pool.curThreadSize_ ∨
      ∃ i pr, a = Action.worker i (WorkerMove.wake true) ∧ w.procs[i]? = some pr ∧
        pr.pc = Pc.waiting ∧
        w.pool.poolMode_ = PoolMode.MODE_CACHED ∧
        (∀ tc, pr.lastDone = some tc → tc ≤ w.now ∧ 10 * ticksPerSecond ≤ w.now - tc) ∧
        (pr.lastDone = none →
          pr.enteredAt ≤ w.now ∧ 10 * ticksPerSecond ≤ w.now - pr.enteredAt) ∧
        w.pool.initThreadSize_ < w.pool.curThreadSize_ ∧
        w'.pool.threads_ = regErase w.pool.threads_ pr.threadid ∧
        w'.pool.threads_.lookup pr.threadid = none ∧
        (∀ j, j ≠ pr.threadid → w'.pool.threads_.lookup j = w.pool.threads_.lookup j) ∧
        w'.pool.curThreadSize_ = w.pool.curThreadSize_ - 1 ∧
        w'.pool.idleThreadSize_ = w.pool.idleThreadSize_ - 1 ∧
        w'.procs = w.procs.set i { pr with pc := Pc.exited } := by
  have hinv := poolInv_run (start_inv hf hs).1 hr
  have htime := timeInv_run (start_timeInv hf hs) hr
  refine ⟨hinv.init_eq, hinv.init_le, ?_⟩
  intro a w' hstep
  refine step_cases (fun w' => w.pool.curThreadSize_ ≤ w'.pool.curThreadSize_ ∨
      ∃ i pr, a = Action.worker i (WorkerMove.wake true) ∧ w.procs[i]? = some pr ∧
        pr.pc = Pc.waiting ∧
        w.pool.poolMode_ = PoolMode.MODE_CACHED ∧
        (∀ tc, pr.lastDone = some tc → tc ≤ w.now ∧ 10 * ticksPerSecond ≤ w.now - tc) ∧
        (pr.lastDone = none →
          pr.enteredAt ≤ w.now ∧ 10 * ticksPerSecond ≤ w.now - pr.enteredAt) ∧
        w.pool.initThreadSize_ < w.pool.curThreadSize_ ∧
        w'.pool.threads_ = regErase w.pool.threads_ pr.threadid ∧
        w'.pool.threads_.lookup pr.threadid = none ∧
        (∀ j, j ≠ pr.threadid → w'.pool.threads_.lookup j = w.pool.threads_.lookup j) ∧
        w'.pool.curThreadSize_ = w.pool.curThreadSize_ - 1 ∧
        w'.pool.idleThreadSize_ = w.pool.idleThreadSize_ - 1 ∧
        w'.procs = w.procs.set i { pr with pc := Pc.exited })
    w a ?_ ?_ ?_ ?_ ?_ ?_ ?_ ?_ ?_ ?_ ?_ ?_ ?_ w' hstep
  · intro _; exact Or.inl (le_refl _)
  · intro sp _ _; exact Or.inl (le_refl _)
  · intro sp _ _
    left
    rw [spawnWorker_pool]
    simp only [enqueueTask]
    omega
  · intro d; exact Or.inl (le_refl _)
  · intro _; exact Or.inl (le_refl _)
  · intro d _ _; exact Or.inl (le_refl _)
  · intro i pr _ _; exact Or.inl (le_refl _)
  · intro i pr _ _ _ _; exact Or.inl (le_refl _)
  · intro i pr _ _ _ _; exact Or.inl (le_refl _)
  · intro i pr task rest _ _ _; exact Or.inl (le_refl _)
  · intro i pr ha hi hpc hmode hc
    right
    rw [reclaimCond_iff] at hc
    obtain ⟨ht1, ht2⟩ := (htime pr (List.getElem?_mem hi)).2 (by rw [hpc]; simp)
    refine ⟨i, pr, ha, hi, hpc, hmode, ?_, ?_, hc.2, rfl, lookup_regErase_self _ _,
      fun j hj => lookup_regErase_ne _ _ _ hj, rfl, rfl, rfl⟩
    · intro tc htc
      rw [htc, Option.getD_some] at ht1
      rw [← ht1]
      exact ⟨ht2, hc.1⟩
    · intro hnone
      rw [hnone, Option.getD_none] at ht1
      rw [← ht1]
      exact ⟨ht2, hc.1⟩
  · intro i pr ticket task _ _; exact Or.inl (le_refl _)
  · intro i pr _ _; exact Or.inl (le_refl _)

/-- C5, counterexample: after `demoNeverRanTrace` worker 1 is in its timed wait and
has finished no task, so there is no last task completion to measure from; the
timed-out return of that wait still reclaims it, ten seconds after it entered
`threadFunc` at clock 3: it leaves the registry and the current count drops from 2
to 1. -/
theorem C5_reclaimed_without_completion :
    run (demoNeverRanTrace ++ [Action.worker 1 (.wake true)]) (started demoCached 0) =
      some (afterRun (demoNeverRanTrace ++ [Action.worker 1 (.wake true)])
        (started demoCached 0)) ∧
    (afterRun demoNeverRanTrace (started demoCached 0)).procs[1]? =
      some { threadid := 1, pc := Pc.waiting, lastTime := 3, enteredAt := 3, lastDone := none } ∧
    (afterRun demoNeverRanTrace (started demoCached 0)).execLog = [(0, 7)] ∧
    (afterRun demoNeverRanTrace (started demoCached 0)).pool.curThreadSize_ = 2 ∧
    (afterRun demoNeverRanTrace (started demoCached 0)).pool.threads_ =
      [(0, some { threadId_ := 0 }), (1, some { threadId_ := 1 })] ∧
    (afterRun (demoNeverRanTrace ++ [Action.worker 1 (.wake true)])
      (started demoCached 0)).procs[1]? =
      some { threadid := 1, pc := Pc.exited, lastTime := 3, enteredAt := 3, lastDone := none } ∧
    (afterRun (demoNeverRanTrace ++ [Action.worker 1 (.wake true)])
      (started demoCached 0)).pool.curThreadSize_ = 1 ∧
    (afterRun (demoNeverRanTrace ++ [Action.worker 1 (.wake true)])
      (started demoCached 0)).pool.threads_ = [(0, some { threadId_ := 0 })] :=
  ⟨rfl, by decide, by decide, by decide, by decide, by decide, by decide, by decide⟩

/-- C5, witness: after `demoIdleTrace` worker 0 finished its task at clock 3 and ten
seconds have passed; the timed-out wake-up is a reclamation, and the current count 0
that results is not below the initial count 0. -/
theorem C5_idle_reclaim_witness :
    (afterRun demoIdleTrace (started demoCached 0)).pool.initThreadSize_ = 0 ∧
      (0 : Int) ≤ (afterRun demoIdleTrace (started demoCached 0)).pool.curThreadSize_ ∧
      (afterRun (demoIdleTrace ++ [Action.worker 0 (.wake true)]) (started demoCached 0)).pool.curThreadSize_
        = 0 :=
  ⟨(C5_idle_reclaim demoCached (started demoCached 0)
      (afterRun demoIdleTrace (started demoCached 0)) 0 demoIdleTrace (by decide) rfl rfl).1,
   (C5_idle_reclaim demoCached (started demoCached 0)
      (afterRun demoIdleTrace (started demoCached 0)) 0 demoIdleTrace (by decide) rfl rfl).2.1,
   by decide⟩

/-! ## FIFO order and single execution (claim C6) -/

/-- C6: in every state reached after `start` by submissions and worker steps, the
tasks dequeued so far followed by the queue are the accepted submissions in order, so
the dequeued tasks are a leading part of the accepted ones; no ticket (position among
the dequeues) has had `exec` called twice, and every `exec` was called on the task
accepted at that position; and every move either dequeues nothing or removes exactly
the front task, keeps the rest of the queue in order and lowers `taskSize_` and the
idle count by one each. -/
theorem C6_fifo_once (w0 w1 w : World) (n : Int) (acts : List Action)
    (hf : w0.Fresh) (hs : start w0 n = Except.ok w1) (hr : run acts w1 = some w) :
    w.dequeued ++ w.pool.taskQue_ = w.accepted ∧
    w.dequeued <+: w.accepted ∧
    (w.execLog.map Prod.fst).Nodup ∧
    (∀ e ∈ w.execLog, e.1 < w.dequeued.length ∧ w.accepted[e.1]? = some e.2) ∧
    ∀ a w', step a w = some w' →
      (w'.dequeued = w.dequeued ∧
        (w'.pool.taskQue_ = w.pool.taskQue_ ∨
          ∃ sp, w'.pool.taskQue_ = w.pool.taskQue_ ++ [sp])) ∨
      ∃ task rest, w.pool.taskQue_ = task :: rest ∧ w'.pool.taskQue_ = rest ∧
        w'.dequeued = w.dequeued ++ [task] ∧
        w'.pool.taskSize_ = w.pool.taskSize_ - 1 ∧
        w'.pool.idleThreadSize_ = w.pool.idleThreadSize_ - 1 := by
  have hinv := poolInv_run (start_inv hf hs).1 hr
  have hlog := logInv_run (start_inv hf hs).2.1 hr
  refine ⟨hinv.fifo, ⟨w.pool.taskQue_, hinv.fifo⟩, ?_, ?_, ?_⟩
  · exact (List.nodup_append.mp hlog.nodup).1
  · intro e he
    have h1 := hlog.logged e he
    refine ⟨lt_of_getElem?_some h1, ?_⟩
    rw [← hinv.fifo]
    exact getElem?_append_some _ h1
  · intro a w' hstep
    refine step_cases (fun w' =>
        (w'.dequeued = w.dequeued ∧
          (w'.pool.taskQue_ = w.pool.taskQue_ ∨
            ∃ sp, w'.pool.taskQue_ = w.pool.taskQue_ ++ [sp])) ∨
        ∃ task rest, w.pool.taskQue_ = task :: rest ∧ w'.pool.taskQue_ = rest ∧
          w'.dequeued = w.dequeued ++ [task] ∧
          w'.pool.taskSize_ = w.pool.taskSize_ - 1 ∧
          w'.pool.idleThreadSize_ = w.pool.idleThreadSize_ - 1)
      w a ?_ ?_ ?_ ?_ ?_ ?_ ?_ ?_ ?_ ?_ ?_ ?_ ?_ w' hstep
    · intro _; exact Or.inl ⟨rfl, Or.inl rfl⟩
    · intro sp _ _; exact Or.inl ⟨rfl, Or.inr ⟨sp, rfl⟩⟩
    · intro sp _ _
      left
      rw [spawnWorker_pool]
      exact ⟨(spawnWorker_rest _).2.2.2.2.2.1, Or.inr ⟨sp, rfl⟩⟩
    · intro d; exact Or.inl ⟨rfl, Or.inl rfl⟩
    · intro _; exact Or.inl ⟨rfl, Or.inl rfl⟩
    · intro d _ _; exact Or.inl ⟨rfl, Or.inl rfl⟩
    · intro i pr _ _; exact Or.inl ⟨rfl, Or.inl rfl⟩
    · intro i pr _ _ _ _; exact Or.inl ⟨rfl, Or.inl rfl⟩
    · intro i pr _ _ _ _; exact Or.inl ⟨rfl, Or.inl rfl⟩
    · intro i pr task rest _ _ hq
      exact Or.inr ⟨task, rest, hq, rfl, rfl, rfl, rfl⟩
    · intro i pr _ _ _ _ _; exact Or.inl ⟨rfl, Or.inl rfl⟩
    · intro i pr ticket task _ _; exact Or.inl ⟨rfl, Or.inl rfl⟩
    · intro i pr _ _; exact Or.inl ⟨rfl, Or.inl rfl⟩

/-- C6, witness: after `demoFixedTrace` all four tasks were dequeued in the order of
their submission. -/
theorem C6_fifo_once_witness :
    (afterRun demoFixedTrace (started demoFixed 2)).accepted = [1, 2, 3, 4] ∧
      (afterRun demoFixedTrace (started demoFixed 2)).dequeued ++
          (afterRun demoFixedTrace (started demoFixed 2)).pool.taskQue_ =
        (afterRun demoFixedTrace (started demoFixed 2)).accepted ∧
      ((afterRun demoFixedTrace (started demoFixed 2)).execLog.map Prod.fst).Nodup :=
  ⟨by decide,
   (C6_fifo_once demoFixed (started demoFixed 2) (afterRun demoFixedTrace (started demoFixed 2)) 2
      demoFixedTrace (by decide) rfl rfl).1,
   (C6_fifo_once demoFixed (started demoFixed 2) (afterRun demoFixedTrace (started demoFixed 2)) 2
      demoFixedTrace (by decide) rfl rfl).2.2.1⟩

/-! ## `start` and the identifier counter (claim C8) -/

/-- C8, the code at the failing input: one worker was constructed earlier in the
process, so `generateId_` is 1. `start(1)` on a new pool registers its worker under
identifier 1 and then evaluates `threads_[0]`, which is absent: a null entry is
inserted under 0 and the loop stops at the null pointer, with two registry entries,
the registered worker not started and the idle count still 0. -/
theorem C8_start_with_used_counter :
    demoStale.Fresh ∧ demoStale.generateId_ = 1 ∧
    start demoStale 1 = Except.error (started demoStale 1) ∧
    (started demoStale 1).pool.threads_ = [(1, some { threadId_ := 1 }), (0, none)] ∧
    (started demoStale 1).pool.threads_.length = 2 ∧
    (started demoStale 1).procs = [] ∧
    (started demoStale 1).pool.idleThreadSize_ = 0 ∧
    (started demoStale 1).pool.curThreadSize_ = 1 :=
  ⟨by decide, rfl, rfl, by decide, by decide, by decide, by decide, by decide⟩

/-! ## Shutdown (claim C9) -/

/-- C9, the code at the failing input: after `demoShutdownTrace` the pool is stopped,
worker 0 is in its timed wait and the destructor is asleep on `exitCond_`. The wait
then returns `cv_status::timeout`: worker 0 leaves the dispatch loop through the
idle-timeout branch (lines 175-187), erases its registry entry and returns, and
`exitCond_` was never notified, so the destructor is still asleep on it with the
registry empty and no worker left to wake it. -/
theorem C9_exit_without_notify :
    run (demoShutdownTrace ++ [Action.worker 0 (.wake true)]) (started demoCached 0) =
      some (afterRun (demoShutdownTrace ++ [Action.worker 0 (.wake true)]) (started demoCached 0)) ∧
    (afterRun demoShutdownTrace (started demoCached 0)).pool.isPoolRunning_ = false ∧
    (afterRun demoShutdownTrace (started demoCached 0)).pool.taskQue_ = [] ∧
    (afterRun demoShutdownTrace (started demoCached 0)).procs =
      [{ threadid := 0, pc := Pc.waiting, lastTime := 3, enteredAt := 0, lastDone := some 3 }] ∧
    (afterRun demoShutdownTrace (started demoCached 0)).pool.threads_ = [(0, some { threadId_ := 0 })] ∧
    (afterRun demoShutdownTrace (started demoCached 0)).dtor = DtorState.blocked ∧
    (afterRun (demoShutdownTrace ++ [Action.worker 0 (.wake true)]) (started demoCached 0)).procs =
      [{ threadid := 0, pc := Pc.exited, lastTime := 3, enteredAt := 0, lastDone := some 3 }] ∧
    (afterRun (demoShutdownTrace ++ [Action.worker 0 (.wake true)]) (started demoCached 0)).pool.threads_
      = [] ∧
    (afterRun (demoShutdownTrace ++ [Action.worker 0 (.wake true)]) (started demoCached 0)).exitNotified
      = 0 ∧
    (afterRun (demoShutdownTrace ++ [Action.worker 0 (.wake true)]) (started demoCached 0)).dtor
      = DtorState.blocked :=
  ⟨rfl, by decide, by decide, by decide, by decide, by decide, by decide, by decide, by decide,
    by decide⟩

/-- In every state reached after `start`, a destructor that has returned left an empty
registry behind: the wait of line 31 ends only at a test that finds
`threads_.size() == 0`, and nothing touches the pool afterwards. -/
theorem registry_empty_after_destructor (w0 w1 w : World) (n : Int) (acts : List Action)
    (hf : w0.Fresh) (hs : start w0 n = Except.ok w1) (hr : run acts w1 = some w)
    (hd : w.dtor = DtorState.returned) : w.pool.threads_ = [] :=
  (poolInv_run (start_inv hf hs).1 hr).gone hd

/-- In Fixed mode a move changes the registry only at the test of lines 156-159 with
the queue empty and the pool stopped; it then erases the moving worker's own entry and
notifies `exitCond_` once. -/
theorem fixed_exit_notifies (w w' : World) (a : Action)
    (hm : w.pool.poolMode_ = PoolMode.MODE_FIXED) (h : step a w = some w') :
    (w'.pool.threads_ = w.pool.threads_ ∧ w'.exitNotified = w.exitNotified) ∨
    (w.pool.taskQue_ = [] ∧ w.pool.isPoolRunning_ = false ∧
      w'.exitNotified = w.exitNotified + 1 ∧
      ∃ i pr, w.procs[i]? = some pr ∧ w'.pool.threads_ = regErase w.pool.threads_ pr.threadid ∧
        w'.procs = w.procs.set i { pr with pc := Pc.exited }) := by
  refine step_cases (fun w' =>
      (w'.pool.threads_ = w.pool.threads_ ∧ w'.exitNotified = w.exitNotified) ∨
      (w.pool.taskQue_ = [] ∧ w.pool.isPoolRunning_ = false ∧
        w'.exitNotified = w.exitNotified + 1 ∧
        ∃ i pr, w.procs[i]? = some pr ∧
          w'.pool.threads_ = regErase w.pool.threads_ pr.threadid ∧
          w'.procs = w.procs.set i { pr with pc := Pc.exited }))
    w a ?_ ?_ ?_ ?_ ?_ ?_ ?_ ?_ ?_ ?_ ?_ ?_ ?_ w' h
  · intro _; exact Or.inl ⟨rfl, rfl⟩
  · intro sp _ _; exact Or.inl ⟨rfl, rfl⟩
  · intro sp _ hg
    rw [growCond_iff] at hg
    simp only [enqueueTask] at hg
    rw [hm] at hg
    exact absurd hg.1 (by decide)
  · intro d; exact Or.inl ⟨rfl, rfl⟩
  · intro _; exact Or.inl ⟨rfl, rfl⟩
  · intro d _ _; exact Or.inl ⟨rfl, rfl⟩
  · intro i pr _ _; exact Or.inl ⟨rfl, rfl⟩
  · intro i pr hi _ hq hr
    exact Or.inr ⟨hq, hr, rfl, i, pr, hi, rfl, rfl⟩
  · intro i pr _ _ _ _; exact Or.inl ⟨rfl, rfl⟩
  · intro i pr task rest _ _ _; exact Or.inl ⟨rfl, rfl⟩
  · intro i pr _ _ _ hc _
    rw [hm] at hc
    exact absurd hc (by decide)
  · intro i pr ticket task _ _; exact Or.inl ⟨rfl, rfl⟩
  · intro i pr _ _; exact Or.inl ⟨rfl, rfl⟩

end GeThreadPool
